import Mathlib

/-!
Verification development for the Engineering Diagram QA Assistant
(src/app.py).  The core under study is the JSON-extraction routine that
locates a JSON object inside the free-form text returned by the external
model (app.py lines 194-239), the per-key tolerant validation
(lines 219-232), the two independent table-rendering calls
(lines 249-300), and the HTML download wrapper generate_full_html_doc
(lines 144-151).

Text is modelled as List Char.  Python json.loads and json.dumps are
embedded as executable functions over an inductive Json value; numbers
are kept as their source lexeme (no claim below inspects numeric
values).  The fenced-block regex search
    ```json\s*(\{.*?\})\s*```   with DOTALL and IGNORECASE
is embedded with its leftmost-match and lazy (shortest-span) semantics.
-/

namespace DiagramQA

/-- Backtick character, written by code point to keep the source free of
raw backticks outside strings. -/
def btick : Char := Char.ofNat 96

/-- Whitespace for the Python regex class backslash-s (ASCII part plus
the common extras; exotic Unicode space characters are omitted, no claim
depends on them). -/
def isPyWs (c : Char) : Bool :=
  c = ' ' || c = '\t' || c = '\n' || c = '\r' ||
  c = Char.ofNat 11 || c = Char.ofNat 12 ||
  c = Char.ofNat 28 || c = Char.ofNat 29 || c = Char.ofNat 30 ||
  c = Char.ofNat 31 || c = Char.ofNat 133 || c = Char.ofNat 160

/-- Whitespace accepted between JSON tokens by Python json. -/
def isJsonWs (c : Char) : Bool :=
  c = ' ' || c = '\t' || c = '\n' || c = '\r'

/-- Drop leading regex whitespace (used for the greedy backslash-s-star
pieces of the fence pattern, which are always followed by a
non-whitespace mandatory character, so greedy matching plus backtracking
is equivalent to dropping all whitespace). -/
def dropPyWs (l : List Char) : List Char := l.dropWhile isPyWs

/-- Drop leading JSON whitespace. -/
def skipJWs (l : List Char) : List Char := l.dropWhile isJsonWs

/-- JSON values as produced by json.loads.  Numbers keep their source
lexeme; object members keep insertion order (Python dict), duplicate
keys overwrite in place as in the CPython decoder. -/
inductive Json where
  | null : Json
  | bool (b : Bool) : Json
  | num (lex : List Char) : Json
  | str (s : List Char) : Json
  | arr (items : List Json) : Json
  | obj (members : List (List Char × Json)) : Json

/-- Value of one hex digit, as accepted in a JSON backslash-u escape. -/
def hexVal (c : Char) : Option Nat :=
  if '0' ≤ c ∧ c ≤ '9' then some (c.toNat - 48)
  else if 'a' ≤ c ∧ c ≤ 'f' then some (c.toNat - 87)
  else if 'A' ≤ c ∧ c ≤ 'F' then some (c.toNat - 55)
  else none

/-- Combine four hex digits into a code unit. -/
def hex4 (a b c d : Char) : Option Nat := do
  let x ← hexVal a
  let y ← hexVal b
  let z ← hexVal c
  let w ← hexVal d
  pure (4096 * x + 256 * y + 16 * z + w)

/-- Decode one backslash-u escape starting after the letter u, including
the CPython surrogate-pair lookahead.  Returns the decoded character and
the remaining input.  A lone surrogate, which Python keeps as a
surrogate code point inside str, is mapped through Char.ofNat; no claim
exercises that branch since the encoder never emits lone surrogates. -/
def uEscape (l : List Char) : Option (Char × List Char) :=
  match l with
  | a :: b :: c :: d :: rest =>
    match hex4 a b c d with
    | none => none
    | some n =>
      if 0xD800 ≤ n ∧ n ≤ 0xDBFF then
        match rest with
        | '\\' :: 'u' :: a2 :: b2 :: c2 :: d2 :: rest2 =>
          match hex4 a2 b2 c2 d2 with
          | none => none
          | some m =>
            if 0xDC00 ≤ m ∧ m ≤ 0xDFFF then
              some (Char.ofNat (0x10000 + 1024 * (n - 0xD800) + (m - 0xDC00)), rest2)
            else some (Char.ofNat n, rest)
        | _ => some (Char.ofNat n, rest)
      else some (Char.ofNat n, rest)
  | _ => none

/-- Body of a JSON string literal, after the opening quote: CPython
py_scanstring.  Strict mode: raw control characters below 0x20 are
rejected.  Fuel is structural so the function evaluates by rfl; any fuel
above the input length is sufficient since every step consumes input. -/
def parseStrBody : Nat → List Char → Option (List Char × List Char)
  | 0, _ => none
  | fuel + 1, l =>
    match l with
    | [] => none
    | c :: rest =>
      if c = '"' then some ([], rest)
      else if c = '\\' then
        match rest with
        | [] => none
        | e :: rest1 =>
          if e = 'u' then
            match uEscape rest1 with
            | some (ch, rest2) => (parseStrBody fuel rest2).map (fun p => (ch :: p.1, p.2))
            | none => none
          else if e = '"' then (parseStrBody fuel rest1).map (fun p => ('"' :: p.1, p.2))
          else if e = '\\' then (parseStrBody fuel rest1).map (fun p => ('\\' :: p.1, p.2))
          else if e = '/' then (parseStrBody fuel rest1).map (fun p => ('/' :: p.1, p.2))
          else if e = 'b' then (parseStrBody fuel rest1).map (fun p => (Char.ofNat 8 :: p.1, p.2))
          else if e = 'f' then (parseStrBody fuel rest1).map (fun p => (Char.ofNat 12 :: p.1, p.2))
          else if e = 'n' then (parseStrBody fuel rest1).map (fun p => ('\n' :: p.1, p.2))
          else if e = 'r' then (parseStrBody fuel rest1).map (fun p => ('\r' :: p.1, p.2))
          else if e = 't' then (parseStrBody fuel rest1).map (fun p => ('\t' :: p.1, p.2))
          else none
      else if c.toNat < 0x20 then none
      else (parseStrBody fuel rest).map (fun p => (c :: p.1, p.2))

/-- Fractional part of a JSON number lexeme (dot plus at least one
digit), mirroring the optional group of the CPython NUMBER_RE; when the
group does not match nothing is consumed. -/
def numFrac (l : List Char) : List Char × List Char :=
  match l with
  | '.' :: r =>
    let ds := r.takeWhile Char.isDigit
    if ds = [] then ([], l) else ('.' :: ds, r.dropWhile Char.isDigit)
  | _ => ([], l)

/-- Exponent part of a JSON number lexeme, optional as in NUMBER_RE. -/
def numExp (l : List Char) : List Char × List Char :=
  match l with
  | e :: r =>
    if e = 'e' ∨ e = 'E' then
      match r with
      | s :: r2 =>
        if s = '+' ∨ s = '-' then
          let ds := r2.takeWhile Char.isDigit
          if ds = [] then ([], l) else (e :: s :: ds, r2.dropWhile Char.isDigit)
        else
          let ds := r.takeWhile Char.isDigit
          if ds = [] then ([], l) else (e :: ds, r.dropWhile Char.isDigit)
      | [] => ([], l)
    else ([], l)
  | [] => ([], l)

/-- Integer part and overall lexeme of a JSON number: an optional minus
sign, then 0 or a nonzero-led digit run, then optional fraction and
exponent (CPython NUMBER_RE). -/
def parseNumLex (l : List Char) : Option (List Char × List Char) :=
  let sgn : List Char × List Char :=
    match l with
    | '-' :: r => (['-'], r)
    | _ => ([], l)
  match sgn.2 with
  | [] => none
  | c :: r =>
    if c = '0' then
      let f := numFrac r
      let e := numExp f.2
      some (sgn.1 ++ c :: (f.1 ++ e.1), e.2)
    else if c.isDigit then
      let ds := r.takeWhile Char.isDigit
      let rest := r.dropWhile Char.isDigit
      let f := numFrac rest
      let e := numExp f.2
      some (sgn.1 ++ c :: (ds ++ f.1 ++ e.1), e.2)
    else none

/-- Insert a member into an object under CPython dict semantics: a
duplicate key keeps its first position but takes the new value. -/
def insertKey : List (List Char × Json) → List Char → Json → List (List Char × Json)
  | [], k, v => [(k, v)]
  | (k0, v0) :: rest, k, v =>
    if k0 = k then (k0, v) :: rest else (k0, v0) :: insertKey rest k v

mutual

/-- One JSON value, mirroring the CPython scanner scan_once; leading
JSON whitespace is skipped first.  Fuel is structural in Nat so the
parser evaluates by rfl on concrete input; jsonLoads supplies ample
fuel. -/
def parseValue : Nat → List Char → Option (Json × List Char)
  | 0, _ => none
  | fuel + 1, l =>
    match skipJWs l with
    | [] => none
    | c :: r =>
      if c = '{' then
        match skipJWs r with
        | '}' :: r2 => some (.obj [], r2)
        | _ => parseMembers fuel (skipJWs r) []
      else if c = '[' then
        match skipJWs r with
        | ']' :: r2 => some (.arr [], r2)
        | _ => parseItems fuel (skipJWs r)
      else if c = '"' then
        (parseStrBody (r.length + 1) r).map (fun p => (Json.str p.1, p.2))
      else if c = 't' then
        match r with
        | 'r' :: 'u' :: 'e' :: r2 => some (.bool true, r2)
        | _ => none
      else if c = 'f' then
        match r with
        | 'a' :: 'l' :: 's' :: 'e' :: r2 => some (.bool false, r2)
        | _ => none
      else if c = 'n' then
        match r with
        | 'u' :: 'l' :: 'l' :: r2 => some (.null, r2)
        | _ => none
      else if c = 'N' then
        match r with
        | 'a' :: 'N' :: r2 => some (.num (("NaN").toList), r2)
        | _ => none
      else if c = 'I' then
        match r with
        | 'n' :: 'f' :: 'i' :: 'n' :: 'i' :: 't' :: 'y' :: r2 =>
          some (.num (("Infinity").toList), r2)
        | _ => none
      else if c = '-' then
        match r with
        | 'I' :: 'n' :: 'f' :: 'i' :: 'n' :: 'i' :: 't' :: 'y' :: r2 =>
          some (.num (("-Infinity").toList), r2)
        | _ =>
          (parseNumLex (c :: r)).map (fun p => (Json.num p.1, p.2))
      else
        (parseNumLex (c :: r)).map (fun p => (Json.num p.1, p.2))

/-- Members of a JSON object, positioned at a property-name quote after
whitespace has been skipped. -/
def parseMembers : Nat → List Char → List (List Char × Json) → Option (Json × List Char)
  | 0, _, _ => none
  | fuel + 1, l, acc =>
    match l with
    | '"' :: r =>
      match parseStrBody (r.length + 1) r with
      | none => none
      | some (k, r1) =>
        match skipJWs r1 with
        | ':' :: r2 =>
          match parseValue fuel r2 with
          | none => none
          | some (v, r3) =>
            match skipJWs r3 with
            | '}' :: r4 => some (.obj (insertKey acc k v), r4)
            | ',' :: r4 => parseMembers fuel (skipJWs r4) (insertKey acc k v)
            | _ => none
        | _ => none
    | _ => none

/-- Items of a JSON array, positioned at the first item. -/
def parseItems : Nat → List Char → Option (Json × List Char)
  | 0, _ => none
  | fuel + 1, l =>
    match parseValue fuel l with
    | none => none
    | some (v, r) =>
      match skipJWs r with
      | ']' :: r2 => some (.arr [v], r2)
      | ',' :: r2 =>
        match parseItems fuel r2 with
        | some (.arr vs, r3) => some (.arr (v :: vs), r3)
        | _ => none
      | _ => none

end

/-- Python json.loads: skip leading whitespace, parse one value, allow
only trailing whitespace.  The fuel 2*length+2 is always sufficient
since at most two fuel units are spent per input character. -/
def jsonLoads (t : List Char) : Option Json :=
  match parseValue (2 * t.length + 2) t with
  | some (v, r) => if skipJWs r = [] then some v else none
  | none => none

/-- Lowercase hex digits for the json.dumps escape formatter. -/
def hexDig (n : Nat) : Char :=
  if n < 10 then Char.ofNat (48 + n) else Char.ofNat (87 + n)

/-- Four lowercase hex digits of a code unit below 0x10000. -/
def hex4lex (n : Nat) : List Char :=
  [hexDig (n / 4096 % 16), hexDig (n / 256 % 16), hexDig (n / 16 % 16), hexDig (n % 16)]

/-- Escape of one character under json.dumps defaults (ensure_ascii
true): named short escapes, printable ASCII verbatim, everything else as
backslash-u code units, astral characters as a surrogate pair.  The
Python bit operations (n shifted right by 10, n masked with 0x3ff) are
written as division and remainder by 1024, equal for the range in use. -/
def encChar (c : Char) : List Char :=
  if c = '"' then ['\\', '"']
  else if c = '\\' then ['\\', '\\']
  else if c = Char.ofNat 8 then ['\\', 'b']
  else if c = '\t' then ['\\', 't']
  else if c = '\n' then ['\\', 'n']
  else if c = Char.ofNat 12 then ['\\', 'f']
  else if c = '\r' then ['\\', 'r']
  else if 0x20 ≤ c.toNat ∧ c.toNat ≤ 0x7e then [c]
  else if c.toNat < 0x10000 then '\\' :: 'u' :: hex4lex c.toNat
  else
    '\\' :: 'u' :: hex4lex (0xD800 + (c.toNat - 0x10000) / 1024) ++
      ('\\' :: 'u' :: hex4lex (0xDC00 + (c.toNat - 0x10000) % 1024))

/-- Escaped body of a serialized JSON string. -/
def encStr : List Char → List Char
  | [] => []
  | c :: r => encChar c ++ encStr r

mutual

/-- Python json.dumps with default separators (comma-space and
colon-space) and ensure_ascii.  Numbers reproduce their stored lexeme;
the claims below never serialize numbers, so the float repr formatting
of CPython is not modelled. -/
def jsonDumps : Json → List Char
  | .null => ("null").toList
  | .bool true => ("true").toList
  | .bool false => ("false").toList
  | .num lex => lex
  | .str s => '"' :: encStr s ++ ['"']
  | .arr items => '[' :: dumpsItems items ++ [']']
  | .obj members => '{' :: dumpsMembers members ++ ['}']

/-- Serialized array items joined by comma-space. -/
def dumpsItems : List Json → List Char
  | [] => []
  | [v] => jsonDumps v
  | v :: rest => jsonDumps v ++ ',' :: ' ' :: dumpsItems rest

/-- Serialized object members joined by comma-space, keys before
colon-space. -/
def dumpsMembers : List (List Char × Json) → List Char
  | [] => []
  | [(k, v)] => '"' :: encStr k ++ '"' :: ':' :: ' ' :: jsonDumps v
  | (k, v) :: rest =>
    '"' :: encStr k ++ '"' :: ':' :: ' ' :: jsonDumps v ++ ',' :: ' ' :: dumpsMembers rest

end

/-! ## The fenced-block regex search (app.py line 196)

Pattern ```json\s*(\{.*?\})\s*``` with re.DOTALL and re.IGNORECASE.
re.search scans start positions left to right; at a match start the
label is compared case-insensitively, the greedy whitespace runs are
equivalent to dropping whitespace because the following mandatory
character is never whitespace, and the lazy span takes the shortest
extension: the first closing brace whose remainder, after optional
whitespace, starts with three backticks. -/

/-- Whether the continuation after a candidate closing brace completes
the pattern: optional whitespace then three backticks. -/
def closesFence (l : List Char) : Bool :=
  match dropPyWs l with
  | a :: b :: c :: _ => a = btick && b = btick && c = btick
  | _ => false

/-- Lazy body scan after the opening brace of the fenced group: the
shortest prefix ending at a closing brace whose continuation closes the
fence.  Returns the group text after the opening brace (including the
closing brace). -/
def lazySpan : List Char → Option (List Char)
  | [] => none
  | c :: r =>
    if c = '}' && closesFence r then some ['}']
    else (lazySpan r).map (fun s => c :: s)

/-- Case-insensitive comparison of the four label characters with the
letters j s o n (the IGNORECASE flag of the search; only ASCII case is
modelled, which agrees with Python on every character of this label). -/
def labelJson (a b c d : Char) : Bool :=
  a.toLower = 'j' && b.toLower = 's' && c.toLower = 'o' && d.toLower = 'n'

/-- Attempt of the full fence pattern anchored at the head of the input. -/
def fencedFrom (l : List Char) : Option (List Char) :=
  match l with
  | t1 :: t2 :: t3 :: a :: b :: c :: d :: rest =>
    if t1 = btick && t2 = btick && t3 = btick && labelJson a b c d then
      match dropPyWs rest with
      | x :: body => if x = '{' then (lazySpan body).map (fun s => '{' :: s) else none
      | [] => none
    else none
  | _ => none

/-- re.search over the whole text: leftmost start position wins. -/
def fencedSearch : List Char → Option (List Char)
  | [] => none
  | c :: r =>
    match fencedFrom (c :: r) with
    | some s => some s
    | none => fencedSearch r

/-! ## Candidate selection and extraction (app.py lines 194-239) -/

/-- Index of the first occurrence of a character (Python str.find,
with None in place of -1). -/
def pyFindIdx (ch : Char) : List Char → Option Nat
  | [] => none
  | x :: r => if x = ch then some 0 else (pyFindIdx ch r).map (fun i => i + 1)

/-- Index of the first opening brace (Python str.find of the brace). -/
def firstBraceIdx (t : List Char) : Option Nat :=
  pyFindIdx '{' t

/-- Index of the last closing brace (Python str.rfind of the brace). -/
def lastBraceIdx (t : List Char) : Option Nat :=
  match pyFindIdx '}' t.reverse with
  | some k => some (t.length - 1 - k)
  | none => none

/-- Python slice raw_text[i : j+1]. -/
def pySlice (t : List Char) (i j : Nat) : List Char :=
  (t.drop i).take (j + 1 - i)

/-- The three terminal outcomes of the extraction routine, keyed to the
three error messages of app.py: no starting brace (line 211), no
matching braces (line 207), and a json.JSONDecodeError (line 234). -/
inductive FailKind where
  | noStartBrace : FailKind
  | noMatchingBraces : FailKind
  | decodeError : FailKind
deriving DecidableEq

/-- Failure record: the classification together with the text stored in
raw_text_on_json_error, which the code always sets to the full
raw_text. -/
structure ExtractionFailure where
  kind : FailKind
  rawText : List Char

/-- Locate the candidate JSON text inside the model reply: the fenced
block if the regex matches, otherwise the span from the first opening
brace to the last closing brace when the latter comes strictly later
(app.py lines 196-213). -/
def findJsonString (raw : List Char) : Except FailKind (List Char) :=
  match fencedSearch raw with
  | some s => .ok s
  | none =>
    match firstBraceIdx raw with
    | none => .error .noStartBrace
    | some i =>
      match lastBraceIdx raw with
      | none => .error .noMatchingBraces
      | some j => if i < j then .ok (pySlice raw i j) else .error .noMatchingBraces

/-- Full extraction: candidate selection then json.loads, with the
decode failure storing the entire original reply text (app.py lines
215-239). -/
def extractReply (raw : List Char) : Except ExtractionFailure Json :=
  match findJsonString raw with
  | .error k => .error ⟨k, raw⟩
  | .ok c =>
    match jsonLoads c with
    | some j => .ok j
    | none => .error ⟨.decodeError, raw⟩

/-! ## Post-parse key checks and warnings (app.py lines 219-232) -/

/-- First-position lookup in an object member list (parse time already
collapsed duplicate keys, so this is the Python dict lookup). -/
def lookupKey : List (List Char × Json) → List Char → Option Json
  | [], _ => none
  | (k, v) :: rest, key => if k = key then some v else lookupKey rest key

/-- Top-level key of the raw blocks section. -/
def keyRawBlocks : List Char := ("detailed_raw_data_blocks_of_diagram").toList

/-- Top-level key of the refined section. -/
def keyRefined : List Char := ("refined_data").toList

/-- raw_data_for_api: present only when the key exists and its value is
a list (isinstance check, line 219).  On a non-object top level the
Python membership test would raise and be caught as a parse error; that
branch is unreachable because every candidate starts with an opening
brace, see the invariant theorem for claim C9. -/
def rawDataOf (j : Json) : Option (List Json) :=
  match j with
  | .obj ms =>
    match lookupKey ms keyRawBlocks with
    | some (.arr l) => some l
    | _ => none
  | _ => none

/-- refined_data_for_api: present only when the key exists and its value
is a dict (isinstance check, line 227). -/
def refinedDataOf (j : Json) : Option (List (List Char × Json)) :=
  match j with
  | .obj ms =>
    match lookupKey ms keyRefined with
    | some (.obj l) => some l
    | _ => none
  | _ => none

/-- The two distinct st.warning messages of lines 224 and 232. -/
inductive StWarning where
  | rawMissingOrNotList : StWarning
  | refinedMissingOrNotDict : StWarning
deriving DecidableEq

/-- State written by the Gemini-parse stage (lines 194-239): the session
slots gemini_analysis_data, gemini_error, raw_text_on_json_error, the
emitted warnings, and the two locals handed to the table stage. -/
structure GeminiStage where
  analysisData : Option Json
  geminiError : Option FailKind
  rawTextOnJsonError : Option (List Char)
  warnings : List StWarning
  rawDataForApi : Option (List Json)
  refinedDataForApi : Option (List (List Char × Json))

/-- The parse stage as a function of the reply text. -/
def parseStage (raw : List Char) : GeminiStage :=
  match extractReply raw with
  | .error f => ⟨none, some f.kind, some f.rawText, [], none, none⟩
  | .ok j =>
    ⟨some j, none, none,
      (if (rawDataOf j).isNone then [StWarning.rawMissingOrNotList] else []) ++
        (if (refinedDataOf j).isNone then [StWarning.refinedMissingOrNotDict] else []),
      rawDataOf j, refinedDataOf j⟩

/-! ## Table-rendering calls (app.py lines 249-300)

The two requests.post calls are external; each is modelled as an oracle
from the posted payload to either an HTML fragment or a transport
failure, and the except ladder of the code maps each failure to a
message slot. -/

/-- Failure modes of one rendering call, one per except clause of the
code (Timeout, ConnectionError, SSLError, HTTPError, RequestException,
generic Exception). -/
inductive ApiFailure where
  | timeout : ApiFailure
  | connection : ApiFailure
  | ssl : ApiFailure
  | http (status : Nat) : ApiFailure
  | request : ApiFailure
  | other : ApiFailure
deriving DecidableEq

/-- Stored error of one table slot: the payload-empty message (lines
256 and 283), a classified transport failure, or the
missing-or-invalid-structure message of the elif branches (lines 273
and 300). -/
inductive TableErr where
  | emptyData : TableErr
  | apiFail (e : ApiFailure) : TableErr
  | missingStructure : TableErr
deriving DecidableEq

/-- Session state threaded through the two table-call blocks.  The two
called flags record whether requests.post was reached. -/
structure SessionState where
  analysisData : Option Json
  geminiError : Option FailKind
  rawTextOnJsonError : Option (List Char)
  rawTableHtml : Option (List Char)
  rawTableApiError : Option TableErr
  refinedTableHtml : Option (List Char)
  refinedTableApiError : Option TableErr
  rawCalled : Bool
  refinedCalled : Bool

/-- Step 3 of the handler: the raw-table call block (lines 249-273),
reading raw_data_for_api and gemini_error from the state built so far. -/
def runRawTableStep (rawData : Option (List Json))
    (api : List Json → Except ApiFailure (List Char)) (st : SessionState) : SessionState :=
  match rawData with
  | some [] => { st with rawTableApiError := some .emptyData }
  | some d =>
      match api d with
      | .ok html => { st with rawTableHtml := some html, rawCalled := true }
      | .error e => { st with rawTableApiError := some (.apiFail e), rawCalled := true }
  | none =>
    if st.geminiError.isNone then { st with rawTableApiError := some .missingStructure }
    else st

/-- Step 4 of the handler: the refined-table call block (lines 276-300). -/
def runRefinedTableStep (refinedData : Option (List (List Char × Json)))
    (api : List (List Char × Json) → Except ApiFailure (List Char))
    (st : SessionState) : SessionState :=
  match refinedData with
  | some [] => { st with refinedTableApiError := some .emptyData }
  | some d =>
      match api d with
      | .ok html => { st with refinedTableHtml := some html, refinedCalled := true }
      | .error e => { st with refinedTableApiError := some (.apiFail e), refinedCalled := true }
  | none =>
    if st.geminiError.isNone then { st with refinedTableApiError := some .missingStructure }
    else st

/-- The whole analyze handler after the model reply arrives: parse stage
then the two sequential table blocks. -/
def runPipeline (raw : List Char)
    (apiRaw : List Json → Except ApiFailure (List Char))
    (apiRefined : List (List Char × Json) → Except ApiFailure (List Char)) :
    SessionState × List StWarning :=
  let g := parseStage raw
  let st0 : SessionState :=
    ⟨g.analysisData, g.geminiError, g.rawTextOnJsonError, none, none, none, none, false, false⟩
  let st1 := runRawTableStep g.rawDataForApi apiRaw st0
  let st2 := runRefinedTableStep g.refinedDataForApi apiRefined st1
  (st2, g.warnings)

/-! ## Download document wrapper (app.py lines 144-151) -/

/-- The TABLE_STYLES constant (lines 96-105). -/
def TABLE_STYLES : List Char :=
  ("\n<style>\n    body \x7b font-family: sans-serif; margin: 20px; \x7d\n    table \x7b border-collapse: collapse; width: 95%; margin-bottom: 20px; border: 1px solid #ddd; \x7d\n    th, td \x7b text-align: left; padding: 8px; border: 1px solid #ddd; word-wrap: break-word; \x7d\n    th \x7b background-color: #f2f2f2; font-weight: bold;\x7d\n    tr:nth-child(even) \x7b background-color: #f9f9f9; \x7d\n    h1, h2 \x7b border-bottom: 1px solid #ccc; padding-bottom: 5px; margin-top: 30px;\x7d\n</style>\n").toList

/-- Python str.strip: remove whitespace from both ends (same whitespace
set as the regex model; only ASCII-adjacent whitespace is modelled). -/
def pyStrip (l : List Char) : List Char :=
  ((l.dropWhile isPyWs).reverse.dropWhile isPyWs).reverse

/-- The document-type test of line 146: nonempty content whose stripped,
lowercased text starts with the doctype declaration.  Char.toLower is
ASCII-only; Python full-case lowering differs only on characters that
can never produce the ASCII letters of this literal except the Kelvin
sign, which the literal does not contain. -/
def looksLikeFullDoc (content : List Char) : Bool :=
  match content with
  | [] => false
  | _ => (("<!doctype html").toList).isPrefixOf ((pyStrip content).map Char.toLower)

/-- The wrapped standalone document of lines 149-151. -/
def docWrap (title content : List Char) : List Char :=
  ("<!DOCTYPE html>\n<html><head><title>").toList ++ title ++ ("</title>").toList ++
    TABLE_STYLES ++ ("</head>\n<body><h1>").toList ++ title ++ ("</h1>").toList ++
    content ++ ("</body></html>").toList

/-- generate_full_html_doc (lines 144-151). -/
def generate_full_html_doc (content title : List Char) : List Char :=
  if looksLikeFullDoc content then content else docWrap title content

/-- Outcome of the raw-table rendering call described on its own, as a
function of nothing but its own payload, the absence of an upstream
Gemini error, and its own endpoint: the html slot, the error slot and
whether the endpoint was reached.  Stated from the specification words
that each call is classified independently; the independence theorem
for claim C7 proves the sequential pipeline equal to this. -/
def rawCallOutcome (rawData : Option (List Json)) (geminiOk : Bool)
    (api : List Json → Except ApiFailure (List Char)) :
    Option (List Char) × Option TableErr × Bool :=
  match rawData with
  | some [] => (none, some .emptyData, false)
  | some d =>
    match api d with
    | .ok h => (some h, none, true)
    | .error e => (none, some (.apiFail e), true)
  | none => if geminiOk then (none, some .missingStructure, false) else (none, none, false)

/-- Outcome of the refined-table rendering call described on its own. -/
def refinedCallOutcome (refinedData : Option (List (List Char × Json))) (geminiOk : Bool)
    (api : List (List Char × Json) → Except ApiFailure (List Char)) :
    Option (List Char) × Option TableErr × Bool :=
  match refinedData with
  | some [] => (none, some .emptyData, false)
  | some d =>
    match api d with
    | .ok h => (some h, none, true)
    | .error e => (none, some (.apiFail e), true)
  | none => if geminiOk then (none, some .missingStructure, false) else (none, none, false)

/-! Record structure for the round-trip claim -/

structure DimRow where
  dtype : List Char
  dvalue : List Char
  dtol : List Char

structure QaRecord where
  partNo : List Char
  partDesc : List Char
  heatNo : List Char
  dwgNoRev : List Char
  serialNo : List Char
  procNoRev : List Char
  row1 : DimRow
  row2 : DimRow

def pairsJson (pairs : List (List Char × List Char)) : List (List Char × Json) :=
  pairs.map (fun p => (p.1, Json.str p.2))

def rowPairs (d : DimRow) : List (List Char × List Char) :=
  [((("Dimension Type").toList), d.dtype),
   ((("Dimension Value").toList), d.dvalue),
   ((("Dimension Tolerance").toList), d.dtol)]

def rowJson (d : DimRow) : Json := Json.obj (pairsJson (rowPairs d))

def headerPairs (r : QaRecord) : List (List Char × List Char) :=
  [((("Part No.").toList), r.partNo),
   ((("Part Description").toList), r.partDesc),
   ((("Heat No.").toList), r.heatNo),
   ((("DWG No. and Rev.").toList), r.dwgNoRev),
   ((("Serial No.").toList), r.serialNo),
   ((("Procedure No. and Rev.").toList), r.procNoRev)]

def headerJson (r : QaRecord) : Json := Json.obj (pairsJson (headerPairs r))

def dimsJson (r : QaRecord) : Json := Json.arr [rowJson r.row1, rowJson r.row2]

def refinedJson (r : QaRecord) : Json :=
  Json.obj [((("Header Information").toList), headerJson r),
            ((("Dimensions Table").toList), dimsJson r)]

def recordJson (r : QaRecord) : Json :=
  Json.obj [(keyRawBlocks, Json.arr []), (keyRefined, refinedJson r)]

def wrapFenced (jtext : List Char) : List Char :=
  ("```json\n").toList ++ jtext ++ ("\n```").toList

abbrev noBt (l : List Char) : Prop := ∀ c ∈ l, c ≠ btick

def noBtRecord (r : QaRecord) : Prop :=
  noBt r.partNo ∧ noBt r.partDesc ∧ noBt r.heatNo ∧ noBt r.dwgNoRev ∧
  noBt r.serialNo ∧ noBt r.procNoRev ∧
  noBt r.row1.dtype ∧ noBt r.row1.dvalue ∧ noBt r.row1.dtol ∧
  noBt r.row2.dtype ∧ noBt r.row2.dvalue ∧ noBt r.row2.dtol

def strMembersText : List (List Char × List Char) → List Char → List Char
  | [], rest => rest
  | [(k, v)], rest =>
    '"' :: (encStr k ++ '"' :: ':' :: ' ' :: '"' :: (encStr v ++ '"' :: '}' :: rest))
  | (k, v) :: more, rest =>
    '"' :: (encStr k ++ '"' :: ':' :: ' ' :: '"' ::
      (encStr v ++ '"' :: ',' :: ' ' :: strMembersText more rest))

def insertAllStr : List (List Char × Json) → List (List Char × List Char) →
    List (List Char × Json)
  | acc, [] => acc
  | acc, (k, v) :: more => insertAllStr (insertKey acc k (Json.str v)) more


def badRecord : QaRecord :=
  { partNo := [Char.ofNat 125, ' ', btick, btick, btick]
    partDesc := ("N/A").toList
    heatNo := ("N/A").toList
    dwgNoRev := ("N/A").toList
    serialNo := ("N/A").toList
    procNoRev := ("N/A").toList
    row1 := { dtype := ("Length").toList, dvalue := ("12.5").toList, dtol := ("N/A").toList }
    row2 := { dtype := ("Width").toList, dvalue := ("7.0").toList, dtol := ("N/A").toList } }

def goodRecord : QaRecord :=
  { partNo := ("PN-42").toList
    partDesc := ("Bracket").toList
    heatNo := ("H77").toList
    dwgNoRev := ("DWG-9 Rev A").toList
    serialNo := ("S-1").toList
    procNoRev := ("P-3 Rev 0").toList
    row1 := { dtype := ("Length").toList, dvalue := ("12.5").toList, dtol := ("N/A").toList }
    row2 := { dtype := ("Width").toList, dvalue := ("7.0").toList, dtol := ("N/A").toList } }

/-! ## Shape lemmas about the candidate selection -/

theorem lazySpan_last : ∀ l s, lazySpan l = some s → s ≠ [] ∧ s.getLast? = some '}' := by
  intro l
  induction l with
  | nil => intro s h; simp [lazySpan] at h
  | cons c r ih =>
    intro s h
    simp only [lazySpan] at h
    split at h
    · cases h; exact ⟨by simp, rfl⟩
    · rcases Option.map_eq_some'.mp h with ⟨s', hs', rfl⟩
      rcases ih s' hs' with ⟨hne, hlast⟩
      rcases List.exists_cons_of_ne_nil hne with ⟨x, xs, rfl⟩
      exact ⟨by simp, by rw [List.getLast?_cons_cons]; exact hlast⟩

theorem fencedFrom_shape : ∀ l s, fencedFrom l = some s →
    (∃ b, s = '{' :: b) ∧ s.getLast? = some '}' := by
  intro l s h
  unfold fencedFrom at h
  split at h
  · split at h
    · split at h
      · split at h
        · rcases Option.map_eq_some'.mp h with ⟨sp, hsp, rfl⟩
          rcases lazySpan_last _ _ hsp with ⟨hne, hlast⟩
          rcases List.exists_cons_of_ne_nil hne with ⟨x, xs, rfl⟩
          exact ⟨⟨x :: xs, rfl⟩, by rw [List.getLast?_cons_cons]; exact hlast⟩
        · exact absurd h (by simp)
      · exact absurd h (by simp)
    · exact absurd h (by simp)
  · exact absurd h (by simp)

theorem fencedSearch_shape : ∀ t s, fencedSearch t = some s →
    (∃ b, s = '{' :: b) ∧ s.getLast? = some '}' := by
  intro t
  induction t with
  | nil => intro s h; simp [fencedSearch] at h
  | cons c r ih =>
    intro s h
    simp only [fencedSearch] at h
    split at h
    · cases h; exact fencedFrom_shape _ _ (by assumption)
    · exact ih s h

theorem pyFindIdx_spec {ch : Char} : ∀ l i, pyFindIdx ch l = some i →
    i < l.length ∧ l[i]? = some ch := by
  intro l
  induction l with
  | nil => intro i h; simp [pyFindIdx] at h
  | cons x r ih =>
    intro i h
    by_cases hx : x = ch
    · simp [pyFindIdx, hx] at h
      subst h
      simp [hx]
    · simp [pyFindIdx, hx] at h
      rcases h with ⟨a, ha, rfl⟩
      rcases ih a ha with ⟨h1, h2⟩
      exact ⟨by simpa using h1, by simpa using h2⟩

theorem lastBraceIdx_spec : ∀ t j, lastBraceIdx t = some j →
    j < t.length ∧ t[j]? = some '}' := by
  intro t j h
  unfold lastBraceIdx at h
  split at h
  · rename_i k hk
    cases h
    rcases pyFindIdx_spec _ _ hk with ⟨hlt, hget⟩
    rw [List.length_reverse] at hlt
    rw [List.getElem?_reverse hlt] at hget
    exact ⟨by omega, hget⟩
  · exact absurd h (by simp)

theorem pySlice_head : ∀ t i j, i < t.length → t[i]? = some '{' → i ≤ j →
    (pySlice t i j).head? = some '{' := by
  intro t i j hi hget hij
  unfold pySlice
  rw [List.drop_eq_getElem_cons hi]
  have : t[i] = '{' := by
    have := List.getElem?_eq_getElem hi
    rw [this] at hget
    exact Option.some.inj hget
  rw [this]
  have hpos : j + 1 - i = (j - i) + 1 := by omega
  rw [hpos, List.take_succ_cons]
  rfl

theorem pySlice_last : ∀ t i j, j < t.length → i ≤ j → t[j]? = some '}' →
    (pySlice t i j).getLast? = some '}' := by
  intro t i j hj hij hget
  unfold pySlice
  rw [List.getLast?_eq_getElem?]
  have hlen : ((t.drop i).take (j + 1 - i)).length = j + 1 - i := by
    simp [List.length_take, List.length_drop]
    omega
  rw [hlen]
  have hidx : j + 1 - i - 1 = j - i := by omega
  rw [hidx, List.getElem?_take, if_pos (by omega), List.getElem?_drop]
  have : i + (j - i) = j := by omega
  rw [this]
  exact hget

theorem findJsonString_shape : ∀ t c, findJsonString t = .ok c →
    c.head? = some '{' ∧ c.getLast? = some '}' := by
  intro t c h
  unfold findJsonString at h
  split at h
  · cases h
    rename_i s hs
    rcases fencedSearch_shape _ _ hs with ⟨⟨b, rfl⟩, hlast⟩
    exact ⟨rfl, hlast⟩
  · split at h
    · exact absurd h (by simp)
    · rename_i i hi
      split at h
      · exact absurd h (by simp)
      · rename_i j hj
        split at h
        · cases h
          rcases pyFindIdx_spec _ _ hi with ⟨hilt, higet⟩
          rcases lastBraceIdx_spec _ _ hj with ⟨hjlt, hjget⟩
          rename_i hij
          exact ⟨pySlice_head _ _ _ hilt higet (by omega),
            pySlice_last _ _ _ hjlt (by omega) hjget⟩
        · exact absurd h (by simp)

theorem parseMembers_obj : ∀ fuel l acc v r, parseMembers fuel l acc = some (v, r) →
    ∃ ms, v = Json.obj ms := by
  intro fuel
  induction fuel with
  | zero => intro l acc v r h; simp [parseMembers] at h
  | succ f ih =>
    intro l acc v r h
    simp only [parseMembers] at h
    split at h
    · split at h
      · exact absurd h (by simp)
      · split at h
        · split at h
          · exact absurd h (by simp)
          · split at h
            · cases h; exact ⟨_, rfl⟩
            · exact ih _ _ _ _ h
            · exact absurd h (by simp)
        · exact absurd h (by simp)
    · exact absurd h (by simp)

theorem skipJWs_cons_of_neg {c : Char} {l : List Char} (h : isJsonWs c = false) :
    skipJWs (c :: l) = c :: l :=
  List.dropWhile_cons_of_neg (by simp [h])

theorem parseValue_obj_of_head : ∀ f l v r, (skipJWs l).head? = some '{' →
    parseValue f l = some (v, r) → ∃ ms, v = Json.obj ms := by
  intro f l v r hhead h
  cases f with
  | zero => simp [parseValue] at h
  | succ f =>
    simp only [parseValue] at h
    split at h
    · exact absurd h (by simp)
    · rename_i c rr heq
      have hc : c = '{' := by
        rw [heq] at hhead
        simpa using hhead
      subst hc
      rw [if_pos rfl] at h
      split at h
      · cases h; exact ⟨[], rfl⟩
      · exact parseMembers_obj _ _ _ _ _ h

theorem jsonLoads_obj : ∀ c j, c.head? = some '{' → jsonLoads c = some j →
    ∃ ms, j = Json.obj ms := by
  intro c j hhead hload
  rcases c with _ | ⟨x, rest⟩
  · simp at hhead
  · have hx : x = '{' := by simpa using hhead
    subst hx
    unfold jsonLoads at hload
    split at hload
    · rename_i p hv
      split at hload
      · cases hload
        rename_i hv2
        exact parseValue_obj_of_head (2 * ('{' :: rest).length + 2) ('{' :: rest) j p
          (by rw [skipJWs_cons_of_neg (by decide : isJsonWs '{' = false)]; rfl) hv
      · exact absurd hload (by simp)
    · exact absurd hload (by simp)

/-! ## Claims C3, C4, C5, C9 -/

/-- Claim C9: whenever extraction succeeds, the resulting top-level
value is a JSON object; both candidate-selection strategies produce a
candidate that begins with an opening brace and ends with a closing
brace, so a successful parse of any other JSON type is impossible. -/
theorem claim_C9 : ∀ raw j, extractReply raw = Except.ok j →
    (∃ ms, j = Json.obj ms) ∧
      ∃ c, findJsonString raw = Except.ok c ∧ c.head? = some '{' ∧ c.getLast? = some '}' := by
  intro raw j h
  unfold extractReply at h
  split at h
  · exact absurd h (by simp)
  · rename_i c hc
    split at h
    · rename_i j' hj
      cases h
      rcases findJsonString_shape _ _ hc with ⟨h1, h2⟩
      exact ⟨jsonLoads_obj _ _ h1 hj, c, hc, h1, h2⟩
    · exact absurd h (by simp)

/-- Concrete instantiation of claim C9 at a reply consisting of a bare
JSON object. -/
theorem claim_C9_witness :
    (∃ ms, Json.obj [((("a").toList), Json.num (("1").toList))] = Json.obj ms) ∧
      ∃ c, findJsonString (("\x7b\"a\": 1\x7d").toList) = Except.ok c ∧
        c.head? = some '{' ∧ c.getLast? = some '}' :=
  claim_C9 (("\x7b\"a\": 1\x7d").toList)
    (Json.obj [((("a").toList), Json.num (("1").toList))]) rfl

/-- Claim C3 counterexample: on the input from the claim, which has an
opening brace but no closing brace, the code takes the matching-braces
failure branch (line 207), not the JSON-decode branch, so the claimed
malformed-JSON classification does not apply to this input (the stored
text is nevertheless the full input). -/
theorem claim_C3_counterexample :
    extractReply (("\x7b broken json").toList) =
      Except.error ⟨FailKind.noMatchingBraces, ("\x7b broken json").toList⟩ ∧
      FailKind.noMatchingBraces ≠ FailKind.decodeError :=
  ⟨rfl, by decide⟩

/-- Claim C3 (amended): whenever a candidate JSON text is located but
fails to parse, extraction fails with the decode (malformed JSON)
classification and stores the entire original input text, not the
candidate substring; the specific input of the claim locates no
candidate, because it has no closing brace, and instead fails through
the matching-braces check, still storing the full input text. -/
theorem claim_C3 : (∀ t c, findJsonString t = Except.ok c → jsonLoads c = none →
      extractReply t = Except.error ⟨FailKind.decodeError, t⟩) ∧
    extractReply (("\x7b broken json").toList) =
      Except.error ⟨FailKind.noMatchingBraces, ("\x7b broken json").toList⟩ := by
  refine ⟨?_, rfl⟩
  intro t c hfind hload
  simp [extractReply, hfind, hload]

/-- Concrete instantiation of the general part of claim C3. -/
theorem claim_C3_witness :
    extractReply (("\x7boops\x7d").toList) =
      Except.error ⟨FailKind.decodeError, ("\x7boops\x7d").toList⟩ :=
  claim_C3.1 (("\x7boops\x7d").toList) (("\x7boops\x7d").toList) rfl rfl

/-- Claim C4: with no fenced match, when a first opening brace exists
and the last closing brace occurs strictly after it, the candidate is
exactly the inclusive span between them, and a successful parse of that
span is returned by extraction. -/
theorem claim_C4 : ∀ t i j, fencedSearch t = none → firstBraceIdx t = some i →
    lastBraceIdx t = some j → i < j →
    findJsonString t = Except.ok (pySlice t i j) ∧
      ∀ v, jsonLoads (pySlice t i j) = some v → extractReply t = Except.ok v := by
  intro t i j hf hi hj hij
  have hfind : findJsonString t = Except.ok (pySlice t i j) := by
    simp [findJsonString, hf, hi, hj, hij]
  exact ⟨hfind, fun v hv => by simp [extractReply, hfind, hv]⟩

/-- Concrete instantiation of claim C4 on a reply with prose around a
brace span. -/
theorem claim_C4_witness :
    findJsonString (("prose \x7b \"x\": 1 \x7d end").toList) =
      Except.ok (pySlice (("prose \x7b \"x\": 1 \x7d end").toList) 6 15) ∧
      extractReply (("prose \x7b \"x\": 1 \x7d end").toList) =
        Except.ok (Json.obj [((("x").toList), Json.num (("1").toList))]) :=
  ⟨(claim_C4 (("prose \x7b \"x\": 1 \x7d end").toList) 6 15 rfl rfl rfl (by decide)).1,
    (claim_C4 (("prose \x7b \"x\": 1 \x7d end").toList) 6 15 rfl rfl rfl (by decide)).2
      (Json.obj [((("x").toList), Json.num (("1").toList))]) rfl⟩

/-- Claim C5: with no fenced match, when no opening brace exists or the
last closing brace does not occur after the first opening brace,
extraction fails with one of the two no-JSON-found classifications (the
code distinguishes the missing starting brace, line 211, from the
failed brace match, line 207), no parse is attempted and no record is
produced. -/
theorem claim_C5 : ∀ t, fencedSearch t = none →
    (firstBraceIdx t = none ∨
      ∀ i j, firstBraceIdx t = some i → lastBraceIdx t = some j → ¬ i < j) →
    ∃ k, extractReply t = Except.error ⟨k, t⟩ ∧
      (k = FailKind.noStartBrace ∨ k = FailKind.noMatchingBraces) := by
  intro t hf hcond
  rcases hcond with hnone | hforall
  · exact ⟨.noStartBrace, by simp [extractReply, findJsonString, hf, hnone], Or.inl rfl⟩
  · cases hi : firstBraceIdx t with
    | none => exact ⟨.noStartBrace, by simp [extractReply, findJsonString, hf, hi], Or.inl rfl⟩
    | some i =>
      cases hj : lastBraceIdx t with
      | none =>
        exact ⟨.noMatchingBraces, by simp [extractReply, findJsonString, hf, hi, hj], Or.inr rfl⟩
      | some j =>
        exact ⟨.noMatchingBraces,
          by simp [extractReply, findJsonString, hf, hi, hj, hforall i j hi hj], Or.inr rfl⟩

/-- Concrete instantiation of claim C5 at the brace-free apology reply
from the specification scenario. -/
theorem claim_C5_witness :
    ∃ k, extractReply (("Sorry, I cannot process this diagram.").toList) =
      Except.error ⟨k, ("Sorry, I cannot process this diagram.").toList⟩ ∧
      (k = FailKind.noStartBrace ∨ k = FailKind.noMatchingBraces) :=
  claim_C5 (("Sorry, I cannot process this diagram.").toList) rfl (Or.inl rfl)

/-! ## Claim C8: the download-document wrapper -/

theorem docWrap_ne_content : ∀ title content : List Char,
    docWrap title content ≠ content := by
  intro title content hEq
  have hlen := congrArg List.length hEq
  simp only [docWrap, List.length_append] at hlen
  have hA : (("<!DOCTYPE html>\n<html><head><title>").toList).length = 35 := rfl
  rw [hA] at hlen
  omega

/-- Claim C8: the download-document builder returns the fragment
unchanged exactly when the fragment, trimmed and lowercased, begins
with the document-type declaration; otherwise it returns the wrapped
standalone document (doctype, head with title and inline stylesheet,
body containing the fragment), which is never equal to the fragment
since it is strictly longer. -/
theorem claim_C8 : ∀ content title,
    (generate_full_html_doc content title = content ↔
      (("<!doctype html").toList).isPrefixOf ((pyStrip content).map Char.toLower) = true) ∧
    (generate_full_html_doc content title = content ∨
      generate_full_html_doc content title = docWrap title content) := by
  intro content title
  have hcond : looksLikeFullDoc content =
      (("<!doctype html").toList).isPrefixOf ((pyStrip content).map Char.toLower) := by
    cases content <;> rfl
  by_cases h : looksLikeFullDoc content = true
  · refine ⟨⟨fun _ => ?_, fun _ => ?_⟩, Or.inl ?_⟩
    · rw [← hcond]; exact h
    · simp [generate_full_html_doc, h]
    · simp [generate_full_html_doc, h]
  · have hfalse : looksLikeFullDoc content = false := by
      simpa using h
    have hne : docWrap title content ≠ content := docWrap_ne_content title content
    refine ⟨⟨fun hEq => ?_, fun hpre => ?_⟩, Or.inr ?_⟩
    · exact absurd (by simpa [generate_full_html_doc, hfalse] using hEq) hne
    · rw [← hcond] at hpre
      exact absurd hpre (by simp [hfalse])
    · simp [generate_full_html_doc, hfalse]

/-! ## Pipeline lemmas for claims C2, C7, C10 -/

theorem runRawTableStep_preserves : ∀ d api st,
    (runRawTableStep d api st).refinedTableHtml = st.refinedTableHtml ∧
    (runRawTableStep d api st).refinedTableApiError = st.refinedTableApiError ∧
    (runRawTableStep d api st).refinedCalled = st.refinedCalled ∧
    (runRawTableStep d api st).geminiError = st.geminiError ∧
    (runRawTableStep d api st).analysisData = st.analysisData := by
  intro d api st
  unfold runRawTableStep
  split
  · simp
  · rename_i d2 hg heq
    cases api hg <;> simp
  · split <;> simp

theorem runRefinedTableStep_preserves : ∀ d api st,
    (runRefinedTableStep d api st).rawTableHtml = st.rawTableHtml ∧
    (runRefinedTableStep d api st).rawTableApiError = st.rawTableApiError ∧
    (runRefinedTableStep d api st).rawCalled = st.rawCalled ∧
    (runRefinedTableStep d api st).geminiError = st.geminiError ∧
    (runRefinedTableStep d api st).analysisData = st.analysisData := by
  intro d api st
  unfold runRefinedTableStep
  split
  · simp
  · rename_i d2 hg heq
    cases api hg <;> simp
  · split <;> simp

theorem runRawTableStep_spec : ∀ d api st,
    st.rawTableHtml = none → st.rawTableApiError = none → st.rawCalled = false →
    ((runRawTableStep d api st).rawTableHtml,
      (runRawTableStep d api st).rawTableApiError,
      (runRawTableStep d api st).rawCalled) = rawCallOutcome d st.geminiError.isNone api := by
  intro d api st h1 h2 h3
  unfold runRawTableStep rawCallOutcome
  split
  · simp [h1, h3]
  · rename_i d2 hg heq
    cases api hg <;> simp [h2, h1, h3]
  · split <;> rename_i hgem <;> simp [hgem, h1, h2, h3]

theorem runRefinedTableStep_spec : ∀ d api st,
    st.refinedTableHtml = none → st.refinedTableApiError = none → st.refinedCalled = false →
    ((runRefinedTableStep d api st).refinedTableHtml,
      (runRefinedTableStep d api st).refinedTableApiError,
      (runRefinedTableStep d api st).refinedCalled) =
      refinedCallOutcome d st.geminiError.isNone api := by
  intro d api st h1 h2 h3
  unfold runRefinedTableStep refinedCallOutcome
  split
  · simp [h1, h3]
  · rename_i d2 hg heq
    cases api hg <;> simp [h2, h1, h3]
  · split <;> rename_i hgem <;> simp [hgem, h1, h2, h3]

theorem runPipeline_raw_proj : ∀ raw apiR apiF,
    ((runPipeline raw apiR apiF).1.rawTableHtml,
      (runPipeline raw apiR apiF).1.rawTableApiError,
      (runPipeline raw apiR apiF).1.rawCalled) =
      rawCallOutcome (parseStage raw).rawDataForApi (parseStage raw).geminiError.isNone apiR := by
  intro raw apiR apiF
  have hpres := runRefinedTableStep_preserves (parseStage raw).refinedDataForApi apiF
    (runRawTableStep (parseStage raw).rawDataForApi apiR
      ⟨(parseStage raw).analysisData, (parseStage raw).geminiError,
        (parseStage raw).rawTextOnJsonError, none, none, none, none, false, false⟩)
  have hspec := runRawTableStep_spec (parseStage raw).rawDataForApi apiR
    ⟨(parseStage raw).analysisData, (parseStage raw).geminiError,
      (parseStage raw).rawTextOnJsonError, none, none, none, none, false, false⟩
    rfl rfl rfl
  simp only [runPipeline]
  rw [hpres.1, hpres.2.1, hpres.2.2.1]
  exact hspec

theorem runPipeline_refined_proj : ∀ raw apiR apiF,
    ((runPipeline raw apiR apiF).1.refinedTableHtml,
      (runPipeline raw apiR apiF).1.refinedTableApiError,
      (runPipeline raw apiR apiF).1.refinedCalled) =
      refinedCallOutcome (parseStage raw).refinedDataForApi
        (parseStage raw).geminiError.isNone apiF := by
  intro raw apiR apiF
  have hpres := runRawTableStep_preserves (parseStage raw).rawDataForApi apiR
    ⟨(parseStage raw).analysisData, (parseStage raw).geminiError,
      (parseStage raw).rawTextOnJsonError, none, none, none, none, false, false⟩
  have hspec := runRefinedTableStep_spec (parseStage raw).refinedDataForApi apiF
    (runRawTableStep (parseStage raw).rawDataForApi apiR
      ⟨(parseStage raw).analysisData, (parseStage raw).geminiError,
        (parseStage raw).rawTextOnJsonError, none, none, none, none, false, false⟩)
    hpres.1 hpres.2.1 hpres.2.2.1
  simp only [runPipeline]
  rw [hspec, hpres.2.2.2.1]

/-! ## Claims C2, C7, C10 -/

/-- Claim C2: whenever the candidate JSON text parses at the top level,
extraction succeeds and stores the record with no Gemini error, even
when the two expected keys are absent or of the wrong type; each
missing or mistyped sub-section produces its own distinct warning and
leaves its payload unset, so no rendering call is issued for it; this
is never a hard extraction failure. -/
theorem claim_C2 : ∀ t c j, findJsonString t = Except.ok c → jsonLoads c = some j →
    (parseStage t).geminiError = none ∧
    (parseStage t).analysisData = some j ∧
    (rawDataOf j = none →
      StWarning.rawMissingOrNotList ∈ (parseStage t).warnings ∧
      (parseStage t).rawDataForApi = none ∧
      ∀ apiR apiF, (runPipeline t apiR apiF).1.rawCalled = false) ∧
    (refinedDataOf j = none →
      StWarning.refinedMissingOrNotDict ∈ (parseStage t).warnings ∧
      (parseStage t).refinedDataForApi = none ∧
      ∀ apiR apiF, (runPipeline t apiR apiF).1.refinedCalled = false) ∧
    StWarning.rawMissingOrNotList ≠ StWarning.refinedMissingOrNotDict := by
  intro t c j hfind hload
  have hex : extractReply t = Except.ok j := by
    simp [extractReply, hfind, hload]
  have hstage : parseStage t =
      ⟨some j, none, none,
        (if (rawDataOf j).isNone then [StWarning.rawMissingOrNotList] else []) ++
          (if (refinedDataOf j).isNone then [StWarning.refinedMissingOrNotDict] else []),
        rawDataOf j, refinedDataOf j⟩ := by
    simp [parseStage, hex]
  refine ⟨by rw [hstage], by rw [hstage], ?_, ?_, by decide⟩
  · intro hraw
    refine ⟨by simp [hstage, hraw], by rw [hstage]; exact hraw, ?_⟩
    intro apiR apiF
    have hp := runPipeline_raw_proj t apiR apiF
    have : rawCallOutcome (parseStage t).rawDataForApi (parseStage t).geminiError.isNone apiR =
        (none, some TableErr.missingStructure, false) := by
      rw [hstage]
      simp [rawCallOutcome, hraw]
    rw [this] at hp
    exact congrArg (fun p => p.2.2) hp
  · intro href
    refine ⟨by simp [hstage, href], by rw [hstage]; exact href, ?_⟩
    intro apiR apiF
    have hp := runPipeline_refined_proj t apiR apiF
    have : refinedCallOutcome (parseStage t).refinedDataForApi
        (parseStage t).geminiError.isNone apiF = (none, some TableErr.missingStructure, false) := by
      rw [hstage]
      simp [refinedCallOutcome, href]
    rw [this] at hp
    exact congrArg (fun p => p.2.2) hp

/-- Concrete instantiation of claim C2 at the reply consisting of an
empty JSON object: extraction succeeds, both sub-sections are missing,
and both warnings are emitted. -/
theorem claim_C2_witness :
    (parseStage (("\x7b\x7d").toList)).geminiError = none ∧
    StWarning.rawMissingOrNotList ∈ (parseStage (("\x7b\x7d").toList)).warnings ∧
    StWarning.refinedMissingOrNotDict ∈ (parseStage (("\x7b\x7d").toList)).warnings :=
  ⟨(claim_C2 (("\x7b\x7d").toList) (("\x7b\x7d").toList) (Json.obj []) rfl rfl).1,
    ((claim_C2 (("\x7b\x7d").toList) (("\x7b\x7d").toList) (Json.obj []) rfl rfl).2.2.1 rfl).1,
    ((claim_C2 (("\x7b\x7d").toList) (("\x7b\x7d").toList) (Json.obj []) rfl rfl).2.2.2.1 rfl).1⟩

/-- Claim C7: the outcome of each rendering call (stored html, stored
error, whether the endpoint was called) is a function of that call
alone: the raw slots depend only on the raw payload and the raw
endpoint, the refined slots only on the refined payload and the refined
endpoint, so a failure of either call never prevents the other from
being issued, and each error is classified independently. -/
theorem claim_C7 : ∀ raw apiR apiF,
    (((runPipeline raw apiR apiF).1.rawTableHtml,
        (runPipeline raw apiR apiF).1.rawTableApiError,
        (runPipeline raw apiR apiF).1.rawCalled) =
      rawCallOutcome (parseStage raw).rawDataForApi (parseStage raw).geminiError.isNone apiR) ∧
    (((runPipeline raw apiR apiF).1.refinedTableHtml,
        (runPipeline raw apiR apiF).1.refinedTableApiError,
        (runPipeline raw apiR apiF).1.refinedCalled) =
      refinedCallOutcome (parseStage raw).refinedDataForApi
        (parseStage raw).geminiError.isNone apiF) ∧
    (∀ apiR2,
      ((runPipeline raw apiR2 apiF).1.refinedTableHtml,
        (runPipeline raw apiR2 apiF).1.refinedTableApiError,
        (runPipeline raw apiR2 apiF).1.refinedCalled) =
      ((runPipeline raw apiR apiF).1.refinedTableHtml,
        (runPipeline raw apiR apiF).1.refinedTableApiError,
        (runPipeline raw apiR apiF).1.refinedCalled)) ∧
    (∀ apiF2,
      ((runPipeline raw apiR apiF2).1.rawTableHtml,
        (runPipeline raw apiR apiF2).1.rawTableApiError,
        (runPipeline raw apiR apiF2).1.rawCalled) =
      ((runPipeline raw apiR apiF).1.rawTableHtml,
        (runPipeline raw apiR apiF).1.rawTableApiError,
        (runPipeline raw apiR apiF).1.rawCalled)) := by
  intro raw apiR apiF
  refine ⟨runPipeline_raw_proj raw apiR apiF, runPipeline_refined_proj raw apiR apiF, ?_, ?_⟩
  · intro apiR2
    rw [runPipeline_refined_proj raw apiR2 apiF, runPipeline_refined_proj raw apiR apiF]
  · intro apiF2
    rw [runPipeline_raw_proj raw apiR apiF2, runPipeline_raw_proj raw apiR apiF]

/-- Claim C10 counterexample: an absent sub-section is not silently
skipped, contrary to the comparison drawn in the claim: on a reply that
parses to an object with both keys absent, the raw-table slot stores
the missing-or-invalid-structure error, which is an error state
distinct both from silence and from the empty-payload error. -/
theorem claim_C10_counterexample :
    (runPipeline (("\x7b\x7d").toList)
        (fun _ => Except.ok []) (fun _ => Except.ok [])).1.rawTableApiError =
      some TableErr.missingStructure ∧
    some TableErr.missingStructure ≠ (none : Option TableErr) ∧
    TableErr.missingStructure ≠ TableErr.emptyData :=
  ⟨rfl, by decide, by decide⟩

/-- Claim C10 (amended): a present-but-empty sub-section produces the
empty-payload error for its slot and no rendering call; an absent
sub-section (with the top level parsed) also produces no call but
stores the distinct missing-or-invalid-structure error rather than
being silently skipped. -/
theorem claim_C10 : ∀ t apiR apiF,
    ((parseStage t).rawDataForApi = some [] →
      (runPipeline t apiR apiF).1.rawTableApiError = some TableErr.emptyData ∧
      (runPipeline t apiR apiF).1.rawCalled = false) ∧
    ((parseStage t).refinedDataForApi = some [] →
      (runPipeline t apiR apiF).1.refinedTableApiError = some TableErr.emptyData ∧
      (runPipeline t apiR apiF).1.refinedCalled = false) ∧
    ((parseStage t).geminiError = none → (parseStage t).rawDataForApi = none →
      (runPipeline t apiR apiF).1.rawTableApiError = some TableErr.missingStructure ∧
      (runPipeline t apiR apiF).1.rawCalled = false) ∧
    ((parseStage t).geminiError = none → (parseStage t).refinedDataForApi = none →
      (runPipeline t apiR apiF).1.refinedTableApiError = some TableErr.missingStructure ∧
      (runPipeline t apiR apiF).1.refinedCalled = false) ∧
    TableErr.emptyData ≠ TableErr.missingStructure := by
  intro t apiR apiF
  have hraw := runPipeline_raw_proj t apiR apiF
  have href := runPipeline_refined_proj t apiR apiF
  refine ⟨?_, ?_, ?_, ?_, by decide⟩
  · intro h
    rw [h] at hraw
    simp [rawCallOutcome] at hraw
    exact ⟨hraw.2.1, hraw.2.2⟩
  · intro h
    rw [h] at href
    simp [refinedCallOutcome] at href
    exact ⟨href.2.1, href.2.2⟩
  · intro hg h
    rw [h, hg] at hraw
    simp [rawCallOutcome] at hraw
    exact ⟨hraw.2.1, hraw.2.2⟩
  · intro hg h
    rw [h, hg] at href
    simp [refinedCallOutcome] at href
    exact ⟨href.2.1, href.2.2⟩

/-- Concrete instantiation of claim C10 at a reply whose raw-blocks key
holds an empty list and whose refined key holds an empty dictionary. -/
theorem claim_C10_witness :
    (runPipeline (("\x7b\"detailed_raw_data_blocks_of_diagram\": [], \"refined_data\": \x7b\x7d\x7d").toList)
        (fun _ => Except.ok []) (fun _ => Except.ok [])).1.rawTableApiError =
      some TableErr.emptyData ∧
    (runPipeline (("\x7b\"detailed_raw_data_blocks_of_diagram\": [], \"refined_data\": \x7b\x7d\x7d").toList)
        (fun _ => Except.ok []) (fun _ => Except.ok [])).1.refinedTableApiError =
      some TableErr.emptyData :=
  ⟨((claim_C10 (("\x7b\"detailed_raw_data_blocks_of_diagram\": [], \"refined_data\": \x7b\x7d\x7d").toList)
      (fun _ => Except.ok []) (fun _ => Except.ok [])).1 rfl).1,
    ((claim_C10 (("\x7b\"detailed_raw_data_blocks_of_diagram\": [], \"refined_data\": \x7b\x7d\x7d").toList)
      (fun _ => Except.ok []) (fun _ => Except.ok [])).2.1 rfl).1⟩

/-! ## Regex lemmas for claim C1 -/

theorem dropPyWs_append_ws : ∀ ws l, (∀ c ∈ ws, isPyWs c = true) →
    dropPyWs (ws ++ l) = dropPyWs l := by
  intro ws
  induction ws with
  | nil => intro l _; rfl
  | cons w ws ih =>
    intro l h
    have hw : isPyWs w = true := h w (by simp)
    simp only [List.cons_append, dropPyWs, List.dropWhile_cons_of_pos hw]
    exact ih l (fun c hc => h c (by simp [hc]))

theorem dropPyWs_cons_of_neg {c : Char} {l : List Char} (h : isPyWs c = false) :
    dropPyWs (c :: l) = c :: l :=
  List.dropWhile_cons_of_neg (by simp [h])

theorem dropPyWs_append_nonws : ∀ b l, (∃ x ∈ b, isPyWs x = false) →
    dropPyWs (b ++ l) = dropPyWs b ++ l ∧ dropPyWs b ≠ [] := by
  intro b
  induction b with
  | nil => intro l h; simp at h
  | cons x b ih =>
    intro l h
    by_cases hx : isPyWs x = true
    · have hb : ∃ y ∈ b, isPyWs y = false := by
        rcases h with ⟨y, hy, hyw⟩
        rcases List.mem_cons.mp hy with rfl | hy2
        · rw [hx] at hyw; cases hyw
        · exact ⟨y, hy2, hyw⟩
      have := ih l hb
      simp only [List.cons_append, dropPyWs, List.dropWhile_cons_of_pos hx]
      exact this
    · have hx2 : isPyWs x = false := by simpa using hx
      constructor
      · simp only [List.cons_append, dropPyWs_cons_of_neg hx2]
      · rw [dropPyWs_cons_of_neg hx2]
        simp

theorem closesFence_of_ws : ∀ ws post, (∀ c ∈ ws, isPyWs c = true) →
    closesFence (ws ++ btick :: btick :: btick :: post) = true := by
  intro ws post h
  unfold closesFence
  rw [dropPyWs_append_ws ws _ h, dropPyWs_cons_of_neg (by decide)]
  simp

theorem closesFence_false_of_head : ∀ l c r, dropPyWs l = c :: r → c ≠ btick →
    closesFence l = false := by
  intro l c r h hc
  unfold closesFence
  rw [h]
  cases r with
  | nil => rfl
  | cons y ys =>
    cases ys with
    | nil => rfl
    | cons z zs => simp [hc]

theorem lazySpan_cons : ∀ c l, lazySpan (c :: l) =
    if c = '}' && closesFence l then some ['}']
    else (lazySpan l).map (fun s => c :: s) := by
  intro c l
  rfl

theorem lazySpan_exact : ∀ body suffix, body ≠ [] → body.getLast? = some '}' →
    (∀ c ∈ body, c ≠ btick) → closesFence suffix = true →
    lazySpan (body ++ suffix) = some body := by
  intro body
  induction body with
  | nil => intro suffix h; cases h rfl
  | cons c b ih =>
    intro suffix _ hlast hmem hclose
    cases b with
    | nil =>
      have hc : c = '}' := by simpa using hlast
      subst hc
      rw [List.cons_append, List.nil_append, lazySpan_cons,
        if_pos (by simp [hclose] : ('}' = '}' && closesFence suffix) = true)]
    | cons y ys =>
      have hlast2 : (y :: ys).getLast? = some '}' := by
        rw [← List.getLast?_cons_cons]
        exact hlast
      have hmem2 : ∀ x ∈ y :: ys, x ≠ btick := fun x hx => hmem x (by simp [hx])
      have hrec := ih suffix (by simp) hlast2 hmem2 hclose
      have hfalse : closesFence ((y :: ys) ++ suffix) = false := by
        have hnonws : ∃ x ∈ y :: ys, isPyWs x = false :=
          ⟨'}', List.mem_of_mem_getLast? (by simp [hlast2]), by decide⟩
        rcases dropPyWs_append_nonws (y :: ys) suffix hnonws with ⟨happ, hne⟩
        rcases hd : dropPyWs (y :: ys) with _ | ⟨z, zs⟩
        · exact absurd hd hne
        · have hz : z ∈ y :: ys := by
            have : z ∈ dropPyWs (y :: ys) := by rw [hd]; simp
            exact (List.dropWhile_sublist _).mem this
          refine closesFence_false_of_head _ z (zs ++ suffix) ?_ (hmem2 z hz)
          rw [happ, hd]
          simp
      simp only [List.cons_append] at hfalse
      rw [List.cons_append, lazySpan_cons, hrec,
        if_neg (by simp [hfalse])]
      rfl

theorem fencedFrom_none_of_head : ∀ l x, l.head? = some x → x ≠ btick →
    fencedFrom l = none := by
  intro l x hhead hx
  unfold fencedFrom
  split
  · rename_i t1 t2 t3 a b c d rest
    have : t1 = x := by simpa using hhead
    subst this
    rw [if_neg (by simp [hx])]
  · rfl

theorem fencedSearch_cons : ∀ c l, fencedSearch (c :: l) =
    match fencedFrom (c :: l) with
    | some s => some s
    | none => fencedSearch l := by
  intro c l
  rfl

theorem fencedSearch_skip_pre : ∀ pre l, (∀ c ∈ pre, c ≠ btick) →
    fencedSearch (pre ++ l) = fencedSearch l := by
  intro pre
  induction pre with
  | nil => intro l _; rfl
  | cons x pre ih =>
    intro l h
    have hx : x ≠ btick := h x (by simp)
    rw [List.cons_append, fencedSearch_cons,
      fencedFrom_none_of_head (x :: (pre ++ l)) x rfl hx]
    exact ih l (fun c hc => h c (by simp [hc]))

/-! ## Claim C1 -/

/-- Claim C1 counterexample: an input that does contain a fenced json
block enclosing the well-formed object of two braces (the explicit
decomposition in the first conjunct) nevertheless fails extraction with
a decode error, because the regex search is leftmost and lazy: it
selects the earlier fence whose span is not well-formed JSON.  The
fenced strategy therefore does not return the parsed object of every
well-formed fenced block present in the input. -/
theorem claim_C1_counterexample :
    ("```json\n\x7boops\x7d\n``` and ```json\n\x7b\x7d\n```").toList =
      ("```json\n\x7boops\x7d\n``` and ").toList ++ ("```json").toList ++ ("\n").toList ++
        ("\x7b\x7d").toList ++ ("\n").toList ++ ("```").toList ∧
    jsonLoads (("\x7b\x7d").toList) = some (Json.obj []) ∧
    extractReply (("```json\n\x7boops\x7d\n``` and ```json\n\x7b\x7d\n```").toList) =
      Except.error ⟨FailKind.decodeError,
        ("```json\n\x7boops\x7d\n``` and ```json\n\x7b\x7d\n```").toList⟩ :=
  ⟨rfl, rfl, rfl⟩

/-- Claim C1 (amended): for every input that decomposes as prose
without backticks, then a fence opener with a case-insensitive json
label, whitespace, a backtick-free span from an opening brace to a
closing brace, whitespace, a closing fence, and an arbitrary tail, the
fenced span is selected as the candidate (the brace-scanning fallback
is not consulted, so stray braces in the prose or tail are irrelevant),
and extraction returns the parse of the span whenever it parses. -/
theorem claim_C1 : ∀ pre c1 c2 c3 c4 ws1 inner ws2 post j,
    (∀ c ∈ pre, c ≠ btick) →
    labelJson c1 c2 c3 c4 = true →
    (∀ c ∈ ws1, isPyWs c = true) →
    inner ≠ [] →
    inner.getLast? = some '}' →
    (∀ c ∈ inner, c ≠ btick) →
    (∀ c ∈ ws2, isPyWs c = true) →
    jsonLoads ('{' :: inner) = some j →
    findJsonString (pre ++ btick :: btick :: btick :: c1 :: c2 :: c3 :: c4 ::
        (ws1 ++ ('{' :: inner) ++ ws2 ++ btick :: btick :: btick :: post)) =
      Except.ok ('{' :: inner) ∧
    extractReply (pre ++ btick :: btick :: btick :: c1 :: c2 :: c3 :: c4 ::
        (ws1 ++ ('{' :: inner) ++ ws2 ++ btick :: btick :: btick :: post)) =
      Except.ok j := by
  intro pre c1 c2 c3 c4 ws1 inner ws2 post j hpre hlbl hws1 hne hlast hnb hws2 hload
  have hclose : closesFence (ws2 ++ btick :: btick :: btick :: post) = true :=
    closesFence_of_ws ws2 post hws2
  have hlazy : lazySpan (inner ++ (ws2 ++ btick :: btick :: btick :: post)) = some inner :=
    lazySpan_exact inner _ hne hlast hnb hclose
  have hrest : dropPyWs (ws1 ++ ('{' :: inner) ++ ws2 ++ btick :: btick :: btick :: post) =
      '{' :: (inner ++ (ws2 ++ btick :: btick :: btick :: post)) := by
    rw [List.append_assoc, List.append_assoc, dropPyWs_append_ws ws1 _ hws1]
    rw [show ('{' :: inner) ++ (ws2 ++ btick :: btick :: btick :: post) =
        '{' :: (inner ++ (ws2 ++ btick :: btick :: btick :: post)) from rfl]
    exact dropPyWs_cons_of_neg (by decide)
  have hfromEq : fencedFrom (btick :: btick :: btick :: c1 :: c2 :: c3 :: c4 ::
      (ws1 ++ ('{' :: inner) ++ ws2 ++ btick :: btick :: btick :: post)) =
      (if btick = btick && btick = btick && btick = btick && labelJson c1 c2 c3 c4 then
        match dropPyWs (ws1 ++ ('{' :: inner) ++ ws2 ++ btick :: btick :: btick :: post) with
        | x :: body => if x = '{' then (lazySpan body).map (fun s => '{' :: s) else none
        | [] => none
      else none) := rfl
  have hfrom : fencedFrom (btick :: btick :: btick :: c1 :: c2 :: c3 :: c4 ::
      (ws1 ++ ('{' :: inner) ++ ws2 ++ btick :: btick :: btick :: post)) =
      some ('{' :: inner) := by
    rw [hfromEq, if_pos (by simp [hlbl]), hrest]
    simp [hlazy]
  have hsearch : fencedSearch (pre ++ btick :: btick :: btick :: c1 :: c2 :: c3 :: c4 ::
      (ws1 ++ ('{' :: inner) ++ ws2 ++ btick :: btick :: btick :: post)) =
      some ('{' :: inner) := by
    rw [fencedSearch_skip_pre pre _ hpre, fencedSearch_cons, hfrom]
  have hfind : findJsonString (pre ++ btick :: btick :: btick :: c1 :: c2 :: c3 :: c4 ::
      (ws1 ++ ('{' :: inner) ++ ws2 ++ btick :: btick :: btick :: post)) =
      Except.ok ('{' :: inner) := by
    unfold findJsonString
    rw [hsearch]
  exact ⟨hfind, by rw [extractReply.eq_def, hfind]; simp [hload]⟩

/-- Concrete instantiation of claim C1: prose before the fence, a
mixed-case label, stray braces after the closing fence, a span
containing a brace inside a string value. -/
theorem claim_C1_witness :
    findJsonString ((("Result: ").toList) ++ btick :: btick :: btick :: 'J' :: 's' :: 'O' :: 'n' ::
        ((("\n").toList) ++ ('{' :: (("\"a\": true\x7d").toList)) ++ (("\n").toList) ++
          btick :: btick :: btick :: ((" stray \x7b or \x7d here").toList))) =
      Except.ok ('{' :: (("\"a\": true\x7d").toList)) ∧
    extractReply ((("Result: ").toList) ++ btick :: btick :: btick :: 'J' :: 's' :: 'O' :: 'n' ::
        ((("\n").toList) ++ ('{' :: (("\"a\": true\x7d").toList)) ++ (("\n").toList) ++
          btick :: btick :: btick :: ((" stray \x7b or \x7d here").toList))) =
      Except.ok (Json.obj [((("a").toList), Json.bool true)]) :=
  claim_C1 (("Result: ").toList) 'J' 's' 'O' 'n' (("\n").toList)
    (("\"a\": true\x7d").toList) (("\n").toList) ((" stray \x7b or \x7d here").toList)
    (Json.obj [((("a").toList), Json.bool true)])
    (by decide) (by decide) (by decide) (by decide) (by decide) (by decide) (by decide) rfl


/-! Stage 1 experiments: string escape round trip -/

theorem char_valid_nat : ∀ c : Char,
    c.toNat < 0xD800 ∨ (0xDFFF < c.toNat ∧ c.toNat < 0x110000) := by
  intro c
  have h := c.valid
  unfold UInt32.isValidChar Nat.isValidChar at h
  exact h

theorem hexVal_hexDig : ∀ d, d < 16 → hexVal (hexDig d) = some d := by decide

theorem hex4_hex4lex : ∀ n, n < 0x10000 →
    hex4 (hexDig (n / 4096 % 16)) (hexDig (n / 256 % 16)) (hexDig (n / 16 % 16))
      (hexDig (n % 16)) = some n := by
  intro n hn
  unfold hex4
  rw [hexVal_hexDig _ (Nat.mod_lt _ (by omega)), hexVal_hexDig _ (Nat.mod_lt _ (by omega)),
    hexVal_hexDig _ (Nat.mod_lt _ (by omega)), hexVal_hexDig _ (Nat.mod_lt _ (by omega))]
  simp only [Option.bind_eq_bind, Option.some_bind, Option.pure_def]
  congr 1
  omega

theorem uEscape_single : ∀ n rest, n < 0x10000 → ¬ (0xD800 ≤ n ∧ n ≤ 0xDBFF) →
    uEscape (hex4lex n ++ rest) = some (Char.ofNat n, rest) := by
  intro n rest hn hsur
  simp only [hex4lex, List.cons_append, List.nil_append, uEscape, hex4_hex4lex n hn,
    if_neg hsur]

theorem uEscape_pair : ∀ n m rest, 0xD800 ≤ n → n ≤ 0xDBFF → 0xDC00 ≤ m → m ≤ 0xDFFF →
    uEscape (hex4lex n ++ ('\\' :: 'u' :: (hex4lex m ++ rest))) =
      some (Char.ofNat (0x10000 + 1024 * (n - 0xD800) + (m - 0xDC00)), rest) := by
  intro n m rest h1 h2 h3 h4
  simp only [hex4lex, List.cons_append, List.nil_append, uEscape,
    hex4_hex4lex n (by omega : n < 0x10000), hex4_hex4lex m (by omega : m < 0x10000),
    if_pos (And.intro h1 h2), if_pos (And.intro h3 h4)]


theorem encStr_length_ge : ∀ s : List Char, s.length ≤ (encStr s).length := by
  intro s
  induction s with
  | nil => simp [encStr]
  | cons c r ih =>
    have hc : 1 ≤ (encChar c).length := by
      unfold encChar
      split_ifs <;> simp
    simp only [encStr, List.length_append, List.length_cons]
    omega

theorem parseStrBody_enc : ∀ s f rest, s.length < f →
    parseStrBody f (encStr s ++ '"' :: rest) = some (s, rest) := by
  intro s
  induction s with
  | nil =>
    intro f rest hf
    obtain ⟨g, rfl⟩ : ∃ g, f = g + 1 := ⟨f - 1, by omega⟩
    simp [encStr, parseStrBody]
  | cons c s ih =>
    intro f rest hf
    obtain ⟨g, rfl⟩ : ∃ g, f = g + 1 := ⟨f - 1, by omega⟩
    have hg : s.length < g := by
      simp only [List.length_cons] at hf
      omega
    have ihg := ih g rest hg
    by_cases h1 : c = '"'
    · subst h1
      simp +decide [encStr, encChar, parseStrBody, ihg]
    · by_cases h2 : c = '\\'
      · subst h2
        simp +decide [encStr, encChar, parseStrBody, ihg]
      · by_cases h3 : c = Char.ofNat 8
        · subst h3
          simp +decide [encStr, encChar, parseStrBody, ihg]
        · by_cases h4 : c = '\t'
          · subst h4
            simp +decide [encStr, encChar, parseStrBody, ihg]
          · by_cases h5 : c = '\n'
            · subst h5
              simp +decide [encStr, encChar, parseStrBody, ihg]
            · by_cases h6 : c = Char.ofNat 12
              · subst h6
                simp +decide [encStr, encChar, parseStrBody, ihg]
              · by_cases h7 : c = '\r'
                · subst h7
                  simp +decide [encStr, encChar, parseStrBody, ihg]
                · by_cases h8 : 0x20 ≤ c.toNat ∧ c.toNat ≤ 0x7e
                  · have henc : encChar c = [c] := by
                      unfold encChar
                      rw [if_neg h1, if_neg h2, if_neg h3, if_neg h4, if_neg h5, if_neg h6,
                        if_neg h7, if_pos h8]
                    have hlt : ¬ c.toNat < 0x20 := by omega
                    simp only [encStr, henc, List.cons_append, List.nil_append, parseStrBody]
                    simp [h1, h2, hlt, ihg]
                  · by_cases h9 : c.toNat < 0x10000
                    · have henc : encChar c = '\\' :: 'u' :: hex4lex c.toNat := by
                        unfold encChar
                        rw [if_neg h1, if_neg h2, if_neg h3, if_neg h4, if_neg h5, if_neg h6,
                          if_neg h7, if_neg h8, if_pos h9]
                      have hsur : ¬ (0xD800 ≤ c.toNat ∧ c.toNat ≤ 0xDBFF) := by
                        rcases char_valid_nat c with h | h <;> omega
                      have hu := uEscape_single c.toNat (encStr s ++ '"' :: rest) h9 hsur
                      simp only [encStr, henc, List.cons_append, List.append_assoc,
                        parseStrBody]
                      simp +decide [hu, ihg, Char.ofNat_toNat]
                    · have hval := char_valid_nat c
                      have hge : 0x10000 ≤ c.toNat := by omega
                      have hlt17 : c.toNat < 0x110000 := by
                        rcases hval with h | h <;> omega
                      have henc : encChar c = '\\' :: 'u' ::
                          hex4lex (0xD800 + (c.toNat - 0x10000) / 1024) ++
                          ('\\' :: 'u' :: hex4lex (0xDC00 + (c.toNat - 0x10000) % 1024)) := by
                        unfold encChar
                        rw [if_neg h1, if_neg h2, if_neg h3, if_neg h4, if_neg h5, if_neg h6,
                          if_neg h7, if_neg h8, if_neg h9]
                      have hdiv : (c.toNat - 0x10000) / 1024 ≤ 0x3FF := by omega
                      have hu := uEscape_pair (0xD800 + (c.toNat - 0x10000) / 1024)
                        (0xDC00 + (c.toNat - 0x10000) % 1024) (encStr s ++ '"' :: rest)
                        (by omega) (by omega) (by omega)
                        (by have := Nat.mod_lt (c.toNat - 0x10000) (show 0 < 1024 by omega); omega)
                      have hchar : (0x10000 + 1024 * ((0xD800 + (c.toNat - 0x10000) / 1024) - 0xD800) +
                          ((0xDC00 + (c.toNat - 0x10000) % 1024) - 0xDC00)) = c.toNat := by
                        omega
                      rw [hchar] at hu
                      simp only [encStr, henc, List.cons_append, List.append_assoc,
                        parseStrBody]
                      simp +decide [hu, ihg, Char.ofNat_toNat]


theorem skipJWs_cons_of_pos {c : Char} {l : List Char} (h : isJsonWs c = true) :
    skipJWs (c :: l) = skipJWs l :=
  List.dropWhile_cons_of_pos (by simp [h])

theorem parseValue_ws : ∀ f c l, isJsonWs c = true →
    parseValue (f + 1) (c :: l) = parseValue (f + 1) l := by
  intro f c l h
  simp only [parseValue, skipJWs_cons_of_pos h]

theorem pv_str : ∀ f v rest,
    parseValue (f + 1) ('"' :: (encStr v ++ '"' :: rest)) = some (Json.str v, rest) := by
  intro f v rest
  simp only [parseValue, skipJWs_cons_of_neg (by decide : isJsonWs '"' = false)]
  simp +decide
  exact parseStrBody_enc v _ rest (by have := encStr_length_ge v; omega)

theorem pv_empty_arr : ∀ f rest,
    parseValue (f + 1) ('[' :: ']' :: rest) = some (Json.arr [], rest) := by
  intro f rest
  simp only [parseValue, skipJWs_cons_of_neg (by decide : isJsonWs '[' = false),
    skipJWs_cons_of_neg (by decide : isJsonWs ']' = false)]
  simp +decide

theorem pv_obj_start : ∀ f r,
    parseValue (f + 1) ('{' :: '"' :: r) = parseMembers f ('"' :: r) [] := by
  intro f r
  simp only [parseValue, skipJWs_cons_of_neg (by decide : isJsonWs '{' = false),
    skipJWs_cons_of_neg (by decide : isJsonWs '"' = false)]
  simp +decide

theorem pv_arr_start_obj : ∀ f r,
    parseValue (f + 1) ('[' :: '{' :: r) = parseItems f ('{' :: r) := by
  intro f r
  simp only [parseValue, skipJWs_cons_of_neg (by decide : isJsonWs '[' = false),
    skipJWs_cons_of_neg (by decide : isJsonWs '{' = false)]
  simp +decide

theorem pm_val_more : ∀ f k vtext v after r4 acc,
    parseValue (f + 1) vtext = some (v, after) →
    skipJWs after = ',' :: r4 →
    parseMembers (f + 2) ('"' :: (encStr k ++ '"' :: ':' :: ' ' :: vtext)) acc =
      parseMembers (f + 1) (skipJWs r4) (insertKey acc k v) := by
  intro f k vtext v after r4 acc hv hafter
  have hb : k.length < (encStr k ++ '"' :: ':' :: ' ' :: vtext).length + 1 := by
    have := encStr_length_ge k
    simp only [List.length_append, List.length_cons]
    omega
  have hk := parseStrBody_enc k ((encStr k ++ '"' :: ':' :: ' ' :: vtext).length + 1)
    (':' :: ' ' :: vtext) hb
  simp only [parseMembers, hk, skipJWs_cons_of_neg (by decide : isJsonWs ':' = false),
    parseValue_ws f ' ' vtext (by decide), hv, hafter]

theorem pm_val_last : ∀ f k vtext v after r4 acc,
    parseValue (f + 1) vtext = some (v, after) →
    skipJWs after = '}' :: r4 →
    parseMembers (f + 2) ('"' :: (encStr k ++ '"' :: ':' :: ' ' :: vtext)) acc =
      some (Json.obj (insertKey acc k v), r4) := by
  intro f k vtext v after r4 acc hv hafter
  have hb : k.length < (encStr k ++ '"' :: ':' :: ' ' :: vtext).length + 1 := by
    have := encStr_length_ge k
    simp only [List.length_append, List.length_cons]
    omega
  have hk := parseStrBody_enc k ((encStr k ++ '"' :: ':' :: ' ' :: vtext).length + 1)
    (':' :: ' ' :: vtext) hb
  simp only [parseMembers, hk, skipJWs_cons_of_neg (by decide : isJsonWs ':' = false),
    parseValue_ws f ' ' vtext (by decide), hv, hafter]

theorem pi_cons : ∀ f l v after r2 vs r3,
    parseValue f l = some (v, after) → skipJWs after = ',' :: r2 →
    parseItems f r2 = some (Json.arr vs, r3) →
    parseItems (f + 1) l = some (Json.arr (v :: vs), r3) := by
  intro f l v after r2 vs r3 hv hafter hitems
  simp only [parseItems, hv, hafter, hitems]

theorem pi_last : ∀ f l v after r2,
    parseValue f l = some (v, after) → skipJWs after = ']' :: r2 →
    parseItems (f + 1) l = some (Json.arr [v], r2) := by
  intro f l v after r2 hv hafter
  simp only [parseItems, hv, hafter]


/-! Members chain lemma for string-valued objects -/

theorem pm_str_members : ∀ pairs k v f acc rest,
    parseMembers (f + pairs.length + 2) (strMembersText ((k, v) :: pairs) rest) acc =
      some (Json.obj (insertAllStr acc ((k, v) :: pairs)), rest) := by
  intro pairs
  induction pairs with
  | nil =>
    intro k v f acc rest
    simp only [strMembersText, List.length_nil, insertAllStr]
    exact pm_val_last f k _ _ _ _ acc (pv_str f v ('}' :: rest))
      (skipJWs_cons_of_neg (by decide))
  | cons p more ih =>
    intro k v f acc rest
    rcases p with ⟨k2, v2⟩
    simp only [strMembersText, List.length_cons, insertAllStr]
    have hstep := pm_val_more (f + more.length + 1) k
      ('"' :: (encStr v ++ '"' :: ',' :: ' ' :: strMembersText ((k2, v2) :: more) rest))
      (Json.str v) (',' :: ' ' :: strMembersText ((k2, v2) :: more) rest)
      (' ' :: strMembersText ((k2, v2) :: more) rest) acc
      (pv_str (f + more.length + 1) v (',' :: ' ' :: strMembersText ((k2, v2) :: more) rest))
      (skipJWs_cons_of_neg (by decide))
    rw [show f + (more.length + 1) + 2 = (f + more.length + 1) + 2 from by omega] at *
    rw [hstep]
    have hws : skipJWs (' ' :: strMembersText ((k2, v2) :: more) rest) =
        strMembersText ((k2, v2) :: more) rest := by
      rw [skipJWs_cons_of_pos (by decide)]
      rcases more with _ | ⟨q, qs⟩ <;>
        exact skipJWs_cons_of_neg (by decide)
    rw [hws]
    rw [show (f + more.length + 1) + 1 = f + more.length + 2 from by omega]
    exact ih k2 v2 f (insertKey acc k (Json.str v)) rest


theorem dumps_obj_head : ∀ ms rest, jsonDumps (Json.obj ms) ++ rest =
    '{' :: (dumpsMembers ms ++ ('}' :: rest)) := by
  intro ms rest
  simp [jsonDumps, List.append_assoc]

theorem dumps_str_members : ∀ pairs k v rest,
    dumpsMembers (pairsJson ((k, v) :: pairs)) ++ ('}' :: rest) =
      strMembersText ((k, v) :: pairs) rest := by
  intro pairs
  induction pairs with
  | nil =>
    intro k v rest
    simp [pairsJson, dumpsMembers, strMembersText, jsonDumps, List.append_assoc]
  | cons p more ih =>
    intro k v rest
    rcases p with ⟨k2, v2⟩
    have ih2 := ih k2 v2 rest
    simp only [pairsJson, List.map_cons] at ih2 ⊢
    simp only [dumpsMembers, strMembersText, jsonDumps]
    rw [← ih2]
    simp [List.append_assoc]

theorem pv_obj_start2 : ∀ f r c rtail, r = c :: rtail → c ≠ '}' → isJsonWs c = false →
    parseValue (f + 1) ('{' :: r) = parseMembers f r [] := by
  intro f r c rtail hr hc hw
  subst hr
  simp only [parseValue, skipJWs_cons_of_neg (by decide : isJsonWs '{' = false),
    skipJWs_cons_of_neg hw]
  simp only [reduceIte, if_true]
  split
  · rename_i r2 heq
    cases heq
    exact absurd rfl hc
  · rfl

theorem pv_arr_start2 : ∀ f r c rtail, r = c :: rtail → c ≠ ']' → isJsonWs c = false →
    parseValue (f + 1) ('[' :: r) = parseItems f r := by
  intro f r c rtail hr hc hw
  subst hr
  simp +decide only [parseValue, skipJWs_cons_of_neg (show isJsonWs '[' = false by decide),
    skipJWs_cons_of_neg hw, if_true, if_false]
  split
  · rename_i r2 heq
    cases heq
    exact absurd rfl hc
  · rfl

theorem strMembersText_head : ∀ k v pairs rest, ∃ tail,
    strMembersText ((k, v) :: pairs) rest = '"' :: tail := by
  intro k v pairs rest
  cases pairs with
  | nil => exact ⟨_, rfl⟩
  | cons p more =>
    rcases p with ⟨k2, v2⟩
    exact ⟨_, rfl⟩

theorem pv_str_obj : ∀ pairs k v f rest,
    parseValue (f + pairs.length + 3)
        (jsonDumps (Json.obj (pairsJson ((k, v) :: pairs))) ++ rest) =
      some (Json.obj (insertAllStr [] ((k, v) :: pairs)), rest) := by
  intro pairs k v f rest
  rw [dumps_obj_head, dumps_str_members]
  rcases strMembersText_head k v pairs rest with ⟨tail, htail⟩
  rw [show f + pairs.length + 3 = (f + pairs.length + 2) + 1 from by omega]
  rw [pv_obj_start2 (f + pairs.length + 2) _ '"' tail htail (by decide) (by decide)]
  exact pm_str_members pairs k v f [] rest


theorem parse_row : ∀ f d rest,
    parseValue (f + 5) (jsonDumps (rowJson d) ++ rest) = some (rowJson d, rest) := by
  intro f d rest
  exact pv_str_obj [((("Dimension Value").toList), d.dvalue),
    ((("Dimension Tolerance").toList), d.dtol)] (("Dimension Type").toList) d.dtype f rest

theorem parse_header : ∀ f r rest,
    parseValue (f + 8) (jsonDumps (headerJson r) ++ rest) = some (headerJson r, rest) := by
  intro f r rest
  exact pv_str_obj [((("Part Description").toList), r.partDesc),
    ((("Heat No.").toList), r.heatNo),
    ((("DWG No. and Rev.").toList), r.dwgNoRev),
    ((("Serial No.").toList), r.serialNo),
    ((("Procedure No. and Rev.").toList), r.procNoRev)]
    (("Part No.").toList) r.partNo f rest

theorem parse_dims : ∀ f r rest,
    parseValue (f + 8) (jsonDumps (dimsJson r) ++ rest) = some (dimsJson r, rest) := by
  intro f r rest
  have hsplit : jsonDumps (dimsJson r) ++ rest =
      '[' :: (jsonDumps (rowJson r.row1) ++
        (',' :: ' ' :: (jsonDumps (rowJson r.row2) ++ (']' :: rest)))) := by
    simp [dimsJson, jsonDumps, dumpsItems, List.append_assoc]
  rw [hsplit]
  have hrow2 : parseValue ((f + 4) + 1) (' ' :: (jsonDumps (rowJson r.row2) ++ (']' :: rest))) =
      some (rowJson r.row2, ']' :: rest) := by
    rw [parseValue_ws (f + 4) ' ' _ (by decide)]
    exact parse_row f r.row2 (']' :: rest)
  have hitems2 : parseItems ((f + 5) + 1) (' ' :: (jsonDumps (rowJson r.row2) ++ (']' :: rest))) =
      some (Json.arr [rowJson r.row2], rest) :=
    pi_last (f + 5) _ _ _ _ hrow2 (skipJWs_cons_of_neg (by decide))
  have hrow1 : parseValue (f + 6)
      (jsonDumps (rowJson r.row1) ++ (',' :: ' ' :: (jsonDumps (rowJson r.row2) ++ (']' :: rest)))) =
      some (rowJson r.row1, ',' :: ' ' :: (jsonDumps (rowJson r.row2) ++ (']' :: rest))) :=
    parse_row (f + 1) r.row1 _
  have hitems1 : parseItems ((f + 6) + 1)
      (jsonDumps (rowJson r.row1) ++ (',' :: ' ' :: (jsonDumps (rowJson r.row2) ++ (']' :: rest)))) =
      some (Json.arr [rowJson r.row1, rowJson r.row2], rest) :=
    pi_cons (f + 6) _ _ _ _ _ _ hrow1 (skipJWs_cons_of_neg (by decide)) hitems2
  rw [show f + 8 = (f + 7) + 1 from by omega]
  rw [pv_arr_start2 (f + 7) _ '{' _
    (show jsonDumps (rowJson r.row1) ++
        (',' :: ' ' :: (jsonDumps (rowJson r.row2) ++ (']' :: rest))) =
      '{' :: (dumpsMembers (pairsJson (rowPairs r.row1)) ++
        ('}' :: (',' :: ' ' :: (jsonDumps (rowJson r.row2) ++ (']' :: rest)))))
      from dumps_obj_head _ _)
    (by decide) (by decide)]
  exact hitems1

theorem parse_refined : ∀ f r rest,
    parseValue (f + 11) (jsonDumps (refinedJson r) ++ rest) = some (refinedJson r, rest) := by
  intro f r rest
  have hsplit : jsonDumps (refinedJson r) ++ rest =
      '{' :: ('"' :: (encStr (("Header Information").toList) ++ '"' :: ':' :: ' ' ::
        (jsonDumps (headerJson r) ++ (',' :: ' ' ::
          ('"' :: (encStr (("Dimensions Table").toList) ++ '"' :: ':' :: ' ' ::
            (jsonDumps (dimsJson r) ++ ('}' :: rest)))))))) := by
    simp [refinedJson, jsonDumps, dumpsMembers, List.append_assoc]
  rw [hsplit, show f + 11 = (f + 10) + 1 from by omega]
  rw [pv_obj_start2 (f + 10) _ '"' _ rfl (by decide) (by decide)]
  have hv1 : parseValue ((f + 8) + 1)
      (jsonDumps (headerJson r) ++ (',' :: ' ' ::
        ('"' :: (encStr (("Dimensions Table").toList) ++ '"' :: ':' :: ' ' ::
          (jsonDumps (dimsJson r) ++ ('}' :: rest)))))) =
      some (headerJson r, ',' :: ' ' ::
        ('"' :: (encStr (("Dimensions Table").toList) ++ '"' :: ':' :: ' ' ::
          (jsonDumps (dimsJson r) ++ ('}' :: rest))))) :=
    parse_header (f + 1) r _
  rw [show f + 10 = (f + 8) + 2 from by omega]
  rw [pm_val_more (f + 8) _ _ _ _ _ _ hv1 (skipJWs_cons_of_neg (by decide))]
  rw [skipJWs_cons_of_pos (by decide), skipJWs_cons_of_neg (by decide)]
  have hv2 : parseValue ((f + 7) + 1) (jsonDumps (dimsJson r) ++ ('}' :: rest)) =
      some (dimsJson r, '}' :: rest) :=
    parse_dims f r ('}' :: rest)
  rw [show (f + 8) + 1 = (f + 7) + 2 from by omega]
  rw [pm_val_last (f + 7) _ _ _ _ _ _ hv2 (skipJWs_cons_of_neg (by decide))]
  rfl

theorem parse_top : ∀ f r rest,
    parseValue (f + 14) (jsonDumps (recordJson r) ++ rest) = some (recordJson r, rest) := by
  intro f r rest
  have hsplit : jsonDumps (recordJson r) ++ rest =
      '{' :: ('"' :: (encStr keyRawBlocks ++ '"' :: ':' :: ' ' ::
        ('[' :: ']' :: ',' :: ' ' :: ('"' :: (encStr keyRefined ++ '"' :: ':' :: ' ' ::
          (jsonDumps (refinedJson r) ++ ('}' :: rest))))))) := by
    simp [recordJson, jsonDumps, dumpsMembers, dumpsItems, List.append_assoc]
  rw [hsplit, show f + 14 = (f + 13) + 1 from by omega]
  rw [pv_obj_start2 (f + 13) _ '"' _ rfl (by decide) (by decide)]
  have hv1 : parseValue ((f + 11) + 1)
      ('[' :: ']' :: ',' :: ' ' :: ('"' :: (encStr keyRefined ++ '"' :: ':' :: ' ' ::
        (jsonDumps (refinedJson r) ++ ('}' :: rest))))) =
      some (Json.arr [], ',' :: ' ' :: ('"' :: (encStr keyRefined ++ '"' :: ':' :: ' ' ::
        (jsonDumps (refinedJson r) ++ ('}' :: rest))))) :=
    pv_empty_arr (f + 11) _
  rw [show f + 13 = (f + 11) + 2 from by omega]
  rw [pm_val_more (f + 11) _ _ _ _ _ _ hv1 (skipJWs_cons_of_neg (by decide))]
  rw [skipJWs_cons_of_pos (by decide), skipJWs_cons_of_neg (by decide)]
  have hv2 : parseValue ((f + 10) + 1) (jsonDumps (refinedJson r) ++ ('}' :: rest)) =
      some (refinedJson r, '}' :: rest) :=
    parse_refined f r ('}' :: rest)
  rw [show (f + 11) + 1 = (f + 10) + 2 from by omega]
  rw [pm_val_last (f + 10) _ _ _ _ _ _ hv2 (skipJWs_cons_of_neg (by decide))]
  rfl


/-! No-backtick lemmas for the serialized record -/

theorem noBt_nil : noBt [] := by
  intro c hc
  cases hc

theorem noBt_append : ∀ {a b : List Char}, noBt a → noBt b → noBt (a ++ b) := by
  intro a b ha hb c hc
  rcases List.mem_append.mp hc with h | h
  · exact ha c h
  · exact hb c h

theorem noBt_cons : ∀ {c : Char} {l : List Char}, c ≠ btick → noBt l → noBt (c :: l) := by
  intro c l hc hl x hx
  rcases List.mem_cons.mp hx with rfl | h
  · exact hc
  · exact hl x h

theorem noBt_hex4lex : ∀ n, noBt (hex4lex n) := by
  intro n
  have hd : ∀ d, d < 16 → hexDig d ≠ btick := by decide
  intro c hc
  simp only [hex4lex, List.mem_cons, List.not_mem_nil, or_false] at hc
  rcases hc with rfl | rfl | rfl | rfl <;>
    exact hd _ (Nat.mod_lt _ (by omega))

theorem noBt_encChar : ∀ c, c ≠ btick → noBt (encChar c) := by
  intro c hc
  unfold encChar
  split_ifs with h1 h2 h3 h4 h5 h6 h7 h8 h9
  · decide
  · decide
  · decide
  · decide
  · decide
  · decide
  · decide
  · exact noBt_cons hc noBt_nil
  · exact noBt_cons (by decide) (noBt_cons (by decide) (noBt_hex4lex _))
  · exact noBt_cons (by decide) (noBt_cons (by decide)
      (noBt_append (noBt_hex4lex _)
        (noBt_cons (by decide) (noBt_cons (by decide) (noBt_hex4lex _)))))

theorem noBt_encStr : ∀ s, noBt s → noBt (encStr s) := by
  intro s hs
  induction s with
  | nil => exact noBt_nil
  | cons c r ih =>
    exact noBt_append (noBt_encChar c (hs c (by simp)))
      (ih (fun x hx => hs x (by simp [hx])))

theorem noBt_strMembersText : ∀ pairs rest,
    (∀ p ∈ pairs, noBt p.1 ∧ noBt p.2) → noBt rest →
    noBt (strMembersText pairs rest) := by
  intro pairs
  induction pairs with
  | nil => intro rest _ hrest; exact hrest
  | cons p more ih =>
    intro rest hp hrest
    rcases p with ⟨k, v⟩
    have hk : noBt k := (hp (k, v) (by simp)).1
    have hv : noBt v := (hp (k, v) (by simp)).2
    cases more with
    | nil =>
      simp only [strMembersText]
      exact noBt_cons (by decide) (noBt_append (noBt_encStr k hk)
        (noBt_cons (by decide) (noBt_cons (by decide) (noBt_cons (by decide)
          (noBt_cons (by decide) (noBt_append (noBt_encStr v hv)
            (noBt_cons (by decide) (noBt_cons (by decide) hrest))))))))
    | cons q qs =>
      have hmore : noBt (strMembersText (q :: qs) rest) :=
        ih rest (fun x hx => hp x (by simp [hx])) hrest
      simp only [strMembersText]
      exact noBt_cons (by decide) (noBt_append (noBt_encStr k hk)
        (noBt_cons (by decide) (noBt_cons (by decide) (noBt_cons (by decide)
          (noBt_cons (by decide) (noBt_append (noBt_encStr v hv)
            (noBt_cons (by decide) (noBt_cons (by decide)
              (noBt_cons (by decide) hmore)))))))))

theorem noBt_str_obj_dumps : ∀ k v pairs rest,
    (∀ p ∈ (k, v) :: pairs, noBt (p.1 : List Char) ∧ noBt p.2) → noBt rest →
    noBt (jsonDumps (Json.obj (pairsJson ((k, v) :: pairs))) ++ rest) := by
  intro k v pairs rest hp hrest
  rw [dumps_obj_head, dumps_str_members]
  exact noBt_cons (by decide) (noBt_strMembersText _ _ hp hrest)

theorem noBt_row_dumps : ∀ d rest, noBt d.dtype → noBt d.dvalue → noBt d.dtol →
    noBt rest → noBt (jsonDumps (rowJson d) ++ rest) := by
  intro d rest h1 h2 h3 hrest
  have := noBt_str_obj_dumps (("Dimension Type").toList) d.dtype
    [((("Dimension Value").toList), d.dvalue), ((("Dimension Tolerance").toList), d.dtol)]
    rest ?_ hrest
  · exact this
  · intro p hp
    rcases List.mem_cons.mp hp with rfl | hp2
    · exact ⟨show noBt (("Dimension Type").toList) by decide, h1⟩
    · rcases List.mem_cons.mp hp2 with rfl | hp3
      · exact ⟨show noBt (("Dimension Value").toList) by decide, h2⟩
      · rcases List.mem_cons.mp hp3 with rfl | hp4
        · exact ⟨show noBt (("Dimension Tolerance").toList) by decide, h3⟩
        · cases hp4

theorem noBt_header_dumps : ∀ r rest, noBtRecord r → noBt rest →
    noBt (jsonDumps (headerJson r) ++ rest) := by
  intro r rest hr hrest
  obtain ⟨n1, n2, n3, n4, n5, n6, _, _, _, _, _, _⟩ := hr
  have := noBt_str_obj_dumps (("Part No.").toList) r.partNo
    [((("Part Description").toList), r.partDesc),
     ((("Heat No.").toList), r.heatNo),
     ((("DWG No. and Rev.").toList), r.dwgNoRev),
     ((("Serial No.").toList), r.serialNo),
     ((("Procedure No. and Rev.").toList), r.procNoRev)] rest ?_ hrest
  · exact this
  · intro p hp
    simp only [List.mem_cons, List.not_mem_nil, or_false] at hp
    rcases hp with rfl | rfl | rfl | rfl | rfl | rfl
    · exact ⟨show noBt (("Part No.").toList) by decide, n1⟩
    · exact ⟨show noBt (("Part Description").toList) by decide, n2⟩
    · exact ⟨show noBt (("Heat No.").toList) by decide, n3⟩
    · exact ⟨show noBt (("DWG No. and Rev.").toList) by decide, n4⟩
    · exact ⟨show noBt (("Serial No.").toList) by decide, n5⟩
    · exact ⟨show noBt (("Procedure No. and Rev.").toList) by decide, n6⟩

theorem noBt_dims_dumps : ∀ r rest, noBtRecord r → noBt rest →
    noBt (jsonDumps (dimsJson r) ++ rest) := by
  intro r rest hr hrest
  obtain ⟨_, _, _, _, _, _, m1, m2, m3, m4, m5, m6⟩ := hr
  have hsplit : jsonDumps (dimsJson r) ++ rest =
      '[' :: (jsonDumps (rowJson r.row1) ++
        (',' :: ' ' :: (jsonDumps (rowJson r.row2) ++ (']' :: rest)))) := by
    simp [dimsJson, jsonDumps, dumpsItems, List.append_assoc]
  rw [hsplit]
  exact noBt_cons (by decide) (noBt_row_dumps r.row1 _ m1 m2 m3
    (noBt_cons (by decide) (noBt_cons (by decide) (noBt_row_dumps r.row2 _ m4 m5 m6
      (noBt_cons (by decide) hrest)))))

theorem noBt_refined_dumps : ∀ r rest, noBtRecord r → noBt rest →
    noBt (jsonDumps (refinedJson r) ++ rest) := by
  intro r rest hr hrest
  have hsplit : jsonDumps (refinedJson r) ++ rest =
      '{' :: ('"' :: (encStr (("Header Information").toList) ++ '"' :: ':' :: ' ' ::
        (jsonDumps (headerJson r) ++ (',' :: ' ' ::
          ('"' :: (encStr (("Dimensions Table").toList) ++ '"' :: ':' :: ' ' ::
            (jsonDumps (dimsJson r) ++ ('}' :: rest)))))))) := by
    simp [refinedJson, jsonDumps, dumpsMembers, List.append_assoc]
  rw [hsplit]
  exact noBt_cons (by decide) (noBt_cons (by decide)
    (noBt_append (noBt_encStr _ (by decide))
      (noBt_cons (by decide) (noBt_cons (by decide) (noBt_cons (by decide)
        (noBt_header_dumps r _ hr
          (noBt_cons (by decide) (noBt_cons (by decide) (noBt_cons (by decide)
            (noBt_append (noBt_encStr _ (by decide))
              (noBt_cons (by decide) (noBt_cons (by decide) (noBt_cons (by decide)
                (noBt_dims_dumps r _ hr (noBt_cons (by decide) hrest)))))))))))))))


theorem noBt_top_dumps : ∀ r rest, noBtRecord r → noBt rest →
    noBt (jsonDumps (recordJson r) ++ rest) := by
  intro r rest hr hrest
  have hsplit : jsonDumps (recordJson r) ++ rest =
      '{' :: ('"' :: (encStr keyRawBlocks ++ '"' :: ':' :: ' ' ::
        ('[' :: ']' :: ',' :: ' ' :: ('"' :: (encStr keyRefined ++ '"' :: ':' :: ' ' ::
          (jsonDumps (refinedJson r) ++ ('}' :: rest))))))) := by
    simp [recordJson, jsonDumps, dumpsMembers, dumpsItems, List.append_assoc]
  rw [hsplit]
  refine noBt_cons (by decide) (noBt_cons (by decide)
    (noBt_append (noBt_encStr _ (by decide)) ?_))
  refine noBt_cons (by decide) ?_
  refine noBt_cons (by decide) ?_
  refine noBt_cons (by decide) ?_
  refine noBt_cons (by decide) ?_
  refine noBt_cons (by decide) ?_
  refine noBt_cons (by decide) ?_
  refine noBt_cons (by decide) ?_
  refine noBt_cons (by decide) (noBt_append (noBt_encStr _ (by decide)) ?_)
  refine noBt_cons (by decide) ?_
  refine noBt_cons (by decide) ?_
  refine noBt_cons (by decide) ?_
  exact noBt_refined_dumps r _ hr (noBt_cons (by decide) hrest)

theorem findJsonString_fenced : ∀ pre c1 c2 c3 c4 ws1 inner ws2 post,
    (∀ c ∈ pre, c ≠ btick) →
    labelJson c1 c2 c3 c4 = true →
    (∀ c ∈ ws1, isPyWs c = true) →
    inner ≠ [] →
    inner.getLast? = some '}' →
    (∀ c ∈ inner, c ≠ btick) →
    (∀ c ∈ ws2, isPyWs c = true) →
    findJsonString (pre ++ btick :: btick :: btick :: c1 :: c2 :: c3 :: c4 ::
        (ws1 ++ ('{' :: inner) ++ ws2 ++ btick :: btick :: btick :: post)) =
      Except.ok ('{' :: inner) := by
  intro pre c1 c2 c3 c4 ws1 inner ws2 post hpre hlbl hws1 hne hlast hnb hws2
  have hclose : closesFence (ws2 ++ btick :: btick :: btick :: post) = true :=
    closesFence_of_ws ws2 post hws2
  have hlazy : lazySpan (inner ++ (ws2 ++ btick :: btick :: btick :: post)) = some inner :=
    lazySpan_exact inner _ hne hlast hnb hclose
  have hrest : dropPyWs (ws1 ++ ('{' :: inner) ++ ws2 ++ btick :: btick :: btick :: post) =
      '{' :: (inner ++ (ws2 ++ btick :: btick :: btick :: post)) := by
    rw [List.append_assoc, List.append_assoc, dropPyWs_append_ws ws1 _ hws1]
    rw [show ('{' :: inner) ++ (ws2 ++ btick :: btick :: btick :: post) =
        '{' :: (inner ++ (ws2 ++ btick :: btick :: btick :: post)) from rfl]
    exact dropPyWs_cons_of_neg (by decide)
  have hfromEq : fencedFrom (btick :: btick :: btick :: c1 :: c2 :: c3 :: c4 ::
      (ws1 ++ ('{' :: inner) ++ ws2 ++ btick :: btick :: btick :: post)) =
      (if btick = btick && btick = btick && btick = btick && labelJson c1 c2 c3 c4 then
        match dropPyWs (ws1 ++ ('{' :: inner) ++ ws2 ++ btick :: btick :: btick :: post) with
        | x :: body => if x = '{' then (lazySpan body).map (fun s => '{' :: s) else none
        | [] => none
      else none) := rfl
  have hfrom : fencedFrom (btick :: btick :: btick :: c1 :: c2 :: c3 :: c4 ::
      (ws1 ++ ('{' :: inner) ++ ws2 ++ btick :: btick :: btick :: post)) =
      some ('{' :: inner) := by
    rw [hfromEq, if_pos (by simp [hlbl]), hrest]
    simp [hlazy]
  have hsearch : fencedSearch (pre ++ btick :: btick :: btick :: c1 :: c2 :: c3 :: c4 ::
      (ws1 ++ ('{' :: inner) ++ ws2 ++ btick :: btick :: btick :: post)) =
      some ('{' :: inner) := by
    rw [fencedSearch_skip_pre pre _ hpre, fencedSearch_cons, hfrom]
  unfold findJsonString
  rw [hsearch]


/-- Claim C6 (amended): for every record with the six fixed header
fields and two dimension rows whose string values contain no backtick,
serializing with the dumps embedding, wrapping in a fenced json block,
and extracting round-trips to the original parsed record. The
backtick restriction is necessary: the lazy fence regex otherwise
truncates the span (see the counterexample). -/
theorem claim_C6 : ∀ r : QaRecord, noBtRecord r →
    extractReply (wrapFenced (jsonDumps (recordJson r))) = Except.ok (recordJson r) := by
  intro r hr
  have hJ : jsonDumps (recordJson r) =
      '{' :: (dumpsMembers [(keyRawBlocks, Json.arr []), (keyRefined, refinedJson r)] ++
        ('}' :: [])) := by
    have h := dumps_obj_head [(keyRawBlocks, Json.arr []), (keyRefined, refinedJson r)] []
    rw [List.append_nil] at h
    exact h
  have hnbJ : noBt (jsonDumps (recordJson r)) := by
    have h := noBt_top_dumps r [] hr noBt_nil
    rwa [List.append_nil] at h
  have hnbInner : ∀ c ∈ (dumpsMembers [(keyRawBlocks, Json.arr []),
      (keyRefined, refinedJson r)] ++ ('}' :: [])), c ≠ btick := by
    intro c hc
    exact hnbJ c (by rw [hJ]; exact List.mem_cons_of_mem _ hc)
  have hne : (dumpsMembers [(keyRawBlocks, Json.arr []), (keyRefined, refinedJson r)] ++
      ('}' :: [])) ≠ [] := by simp
  have hlast : (dumpsMembers [(keyRawBlocks, Json.arr []), (keyRefined, refinedJson r)] ++
      ('}' :: [])).getLast? = some '}' := List.getLast?_concat _
  have hwrap : wrapFenced (jsonDumps (recordJson r)) =
      ([] : List Char) ++ btick :: btick :: btick :: 'j' :: 's' :: 'o' :: 'n' ::
        ((['\n']) ++ ('{' :: (dumpsMembers [(keyRawBlocks, Json.arr []),
            (keyRefined, refinedJson r)] ++ ('}' :: []))) ++ (['\n']) ++
          btick :: btick :: btick :: ([] : List Char)) := by
    simp only [wrapFenced, hJ,
      show ("```json\n").toList =
        btick :: btick :: btick :: 'j' :: 's' :: 'o' :: 'n' :: '\n' :: ([] : List Char)
        from rfl,
      show ("\n```").toList = '\n' :: btick :: btick :: btick :: ([] : List Char) from rfl,
      List.cons_append, List.nil_append, List.append_nil, List.append_assoc]
  have hlen : 6 ≤ (jsonDumps (recordJson r)).length := by
    rw [hJ]
    simp only [dumpsMembers, jsonDumps, dumpsItems, List.length_cons, List.length_append,
      List.length_nil]
    omega
  obtain ⟨f, hf⟩ : ∃ f, 2 * (jsonDumps (recordJson r)).length + 2 = f + 14 :=
    ⟨2 * (jsonDumps (recordJson r)).length + 2 - 14, by omega⟩
  have hpt := parse_top f r []
  rw [List.append_nil] at hpt
  have hload : jsonLoads (jsonDumps (recordJson r)) = some (recordJson r) := by
    unfold jsonLoads
    rw [hf, hpt]
    simp [skipJWs]
  have hfind := findJsonString_fenced [] 'j' 's' 'o' 'n' (['\n'])
    (dumpsMembers [(keyRawBlocks, Json.arr []), (keyRefined, refinedJson r)] ++ ('}' :: []))
    (['\n']) [] noBt_nil (by decide) (by decide) hne hlast hnbInner (by decide)
  rw [← hwrap, ← hJ] at hfind
  simp [extractReply, hfind, hload]



set_option maxRecDepth 100000 in
/-- Claim C6 counterexample: a record whose Part No. value contains a
backtick fence fragment does not round-trip: its serialization embeds
the closing-fence characters inside a JSON string, the lazy fenced
regex selects a truncated span, and extraction fails with a JSON
decode error carrying the full wrapped text, so the unamended claim
is false for this record. -/
theorem claim_C6_counterexample :
    extractReply (wrapFenced (jsonDumps (recordJson badRecord))) =
      Except.error { kind := FailKind.decodeError,
                     rawText := wrapFenced (jsonDumps (recordJson badRecord)) } := by
  rfl

/-- Claim C6 witness: a concrete benign record with all six header
fields and two dimension rows round-trips through the fenced path. -/
theorem claim_C6_witness :
    extractReply (wrapFenced (jsonDumps (recordJson goodRecord))) =
      Except.ok (recordJson goodRecord) :=
  claim_C6 goodRecord (by unfold noBtRecord goodRecord; decide)

end DiagramQA
